import Mathlib

/-!
Shallow embedding of the help-desk heuristic core of this repository:

* `apps/core/models.py` — the `Solution.success_rate` property and the record
  types consumed by the heuristics (`Ticket`, `Solution`, `TicketSolution`,
  `TicketPattern`, `Category`);
* `apps/core/utils.py` — `SolutionSuggestionEngine` (keyword extraction and the
  four suggestion strategies with their merge) and `PatternAnalyzer` (the four
  pattern sub-analyses and their persistence).

Conventions of the embedding:

* Python `float` arithmetic is modelled by exact rational arithmetic over `ℚ`;
  numeric literals such as `0.7` become `7/10`.
* Django ORM rows become fields of an explicit `Db` structure; a queryset
  filter becomes `List.filter`; `get_or_create` becomes a lookup over the
  pattern list followed by an append.  Timestamps are abstract integers.
* Python divisions that could raise `ZeroDivisionError` are modelled with an
  `Option`-valued division `pyDiv` wherever they occur in the analyzer, so a
  run that would raise returns `none`.  (In the suggestion engine every
  division site is syntactically guarded by a nonempty-intersection test that
  forces the divisor to be positive, so plain `ℚ` division is used there.)
* Python `sorted(..., reverse=True)` (a stable sort) is modelled by a stable
  insertion sort `sortByRank`; `list(set(xs))` has unspecified order in
  Python, and is modelled by first-occurrence deduplication `dedupFirst`
  (no computation in the source depends on the order of either).
* Strings are handled character-wise (`String.data`), mirroring Python
  `str.lower`, `str.split`, `str.strip` and the regex
  `\b[a-zA-Z]{3,}\b` over ASCII; the regex matches exactly the maximal runs
  of word characters that consist of letters only and have length at least 3.
-/

namespace HelpDesk

/-- First-occurrence deduplication: the model of Python's `list(set(xs))`
(whose order is unspecified; nothing in the source depends on it). -/
def dedupFirst {α : Type} [DecidableEq α] : List α → List α
  | [] => []
  | x :: xs => x :: (dedupFirst xs).filter (fun y => y ≠ x)

theorem mem_dedupFirst {α : Type} [DecidableEq α] {x : α} {l : List α} :
    x ∈ dedupFirst l ↔ x ∈ l := by
  induction l with
  | nil => simp [dedupFirst]
  | cons a l ih =>
    by_cases hxa : x = a
    · simp [dedupFirst, hxa]
    · simp [dedupFirst, hxa, ih]

theorem nodup_dedupFirst {α : Type} [DecidableEq α] (l : List α) :
    (dedupFirst l).Nodup := by
  induction l with
  | nil => simp [dedupFirst]
  | cons a l ih =>
    refine List.Pairwise.cons (fun y hy => ?_) (List.Nodup.filter _ ih)
    rcases List.mem_filter.mp hy with ⟨-, hne⟩
    exact fun h => (by simp [h] at hne)

theorem count_dedupFirst_le_one {α : Type} [DecidableEq α] (l : List α) (x : α) :
    (dedupFirst l).count x ≤ 1 :=
  List.nodup_iff_count_le_one.mp (nodup_dedupFirst l) x

/-- Word characters of the (ASCII) regex class `\w`: letters, digits and
underscore.  The source regex `\b[a-zA-Z]{3,}\b` uses `\b`, whose definition
is a transition between a `\w` character and a non-`\w` character. -/
def isWordChar (c : Char) : Bool :=
  c.isAlpha || c.isDigit || c == '_'

/-- Maximal runs of word characters of a character list (accumulator holds the
current run, reversed). -/
def wordRuns (acc : List Char) : List Char → List (List Char)
  | [] => if acc.isEmpty then [] else [acc.reverse]
  | c :: cs =>
    if isWordChar c then wordRuns (c :: acc) cs
    else if acc.isEmpty then wordRuns [] cs
    else acc.reverse :: wordRuns [] cs

/-- Model of `re.findall(r'\b[a-zA-Z]{3,}\b', text.lower())`: a maximal run of
word characters in the lowercased text is matched exactly when it consists of
letters only and has length at least 3 (an alphabetic sub-run adjacent to a
digit or underscore has no word boundary next to it, so shorter sub-runs never
match). -/
def findallAlpha3 (text : String) : List String :=
  (wordRuns [] (text.data.map Char.toLower)).filterMap fun r =>
    if 3 ≤ r.length then
      if r.all Char.isAlpha then some (String.mk r) else none
    else none

/-- Stop-word set of `SolutionSuggestionEngine.__init__` (the larger list, with
contractions and pronouns). -/
def engine_stop_words : List String :=
  ["the", "a", "an", "and", "or", "but", "in", "on", "at", "to", "for",
   "of", "with", "by", "is", "are", "was", "were", "be", "been", "have",
   "has", "had", "do", "does", "did", "will", "would", "could", "should",
   "can", "cannot", "cant", "wont", "dont", "doesnt", "didnt", "isnt",
   "arent", "wasnt", "werent", "hasnt", "havent", "hadnt", "i", "you",
   "he", "she", "it", "we", "they", "me", "him", "her", "us", "them"]

/-- Stop-word set of `PatternAnalyzer.extract_keywords` (the shorter list: it
stops at "should" and has no contractions or pronouns, although its docstring
says "same as SolutionSuggestionEngine"). -/
def analyzer_stop_words : List String :=
  ["the", "a", "an", "and", "or", "but", "in", "on", "at", "to", "for",
   "of", "with", "by", "is", "are", "was", "were", "be", "been", "have",
   "has", "had", "do", "does", "did", "will", "would", "could", "should"]

namespace SolutionSuggestionEngine

/-- `SolutionSuggestionEngine.extract_keywords`: tokenize the lowercased text,
drop stop words, return the unique keywords. -/
def extract_keywords (text : String) : List String :=
  dedupFirst ((findallAlpha3 text).filter (fun w => w ∉ engine_stop_words))

end SolutionSuggestionEngine

/-- Insert an element into a list, placing it before the first element `y` with
`le x y`.  Building a sort out of this by folding from the right yields exactly
Python's stable sort semantics. -/
def insertRanked {α : Type} (le : α → α → Bool) (x : α) : List α → List α
  | [] => [x]
  | y :: ys => if le x y then x :: y :: ys else y :: insertRanked le x ys

/-- Stable insertion sort, the model of Python's `sorted` (with
`le a b := key b ≤ key a` for `key=..., reverse=True`: descending, equal keys
keep their original relative order). -/
def sortByRank {α : Type} (le : α → α → Bool) (l : List α) : List α :=
  l.foldr (insertRanked le) []

theorem perm_insertRanked {α : Type} (le : α → α → Bool) (x : α) (l : List α) :
    List.Perm (insertRanked le x l) (x :: l) := by
  induction l with
  | nil => simp [insertRanked]
  | cons y ys ih =>
    by_cases h : le x y
    · simp [insertRanked, h]
    · simp only [insertRanked, if_neg h]
      exact (ih.cons y).trans (List.Perm.swap x y ys)

theorem perm_sortByRank {α : Type} (le : α → α → Bool) (l : List α) :
    List.Perm (sortByRank le l) l := by
  induction l with
  | nil => simp [sortByRank]
  | cons x xs ih =>
    simp only [sortByRank, List.foldr] at *
    exact (perm_insertRanked le x _).trans (ih.cons x)

theorem mem_sortByRank {α : Type} {le : α → α → Bool} {x : α} {l : List α} :
    x ∈ sortByRank le l ↔ x ∈ l :=
  (perm_sortByRank le l).mem_iff

theorem length_sortByRank {α : Type} (le : α → α → Bool) (l : List α) :
    (sortByRank le l).length = l.length :=
  (perm_sortByRank le l).length_eq

theorem mem_insertRanked {α : Type} {le : α → α → Bool} {x y : α} {l : List α} :
    y ∈ insertRanked le x l ↔ y ∈ x :: l :=
  (perm_insertRanked le x l).mem_iff

theorem pairwise_insertRanked {α : Type} {le : α → α → Bool}
    (htrans : ∀ a b c, le a b → le b c → le a c)
    (htot : ∀ a b, le a b ∨ le b a) (x : α) {l : List α}
    (hl : l.Pairwise (fun a b => le a b)) :
    (insertRanked le x l).Pairwise (fun a b => le a b) := by
  induction l with
  | nil => simp [insertRanked]
  | cons y ys ih =>
    rcases List.pairwise_cons.mp hl with ⟨hy, hys⟩
    by_cases h : le x y
    · simp only [insertRanked, if_pos h]
      refine List.Pairwise.cons (fun z hz => ?_) hl
      rcases List.mem_cons.mp hz with rfl | hz
      · exact h
      · exact htrans x y z h (hy _ hz)
    · simp only [insertRanked, if_neg h]
      refine List.Pairwise.cons (fun z hz => ?_) (ih hys)
      rcases List.mem_cons.mp (mem_insertRanked.mp hz) with rfl | hz
      · rcases htot z y with h1 | h1
        · exact absurd h1 h
        · exact h1
      · exact hy _ hz

theorem pairwise_sortByRank {α : Type} {le : α → α → Bool}
    (htrans : ∀ a b c, le a b → le b c → le a c)
    (htot : ∀ a b, le a b ∨ le b a) (l : List α) :
    (sortByRank le l).Pairwise (fun a b => le a b) := by
  induction l with
  | nil => simp [sortByRank]
  | cons x xs ih =>
    exact pairwise_insertRanked htrans htot x ih

namespace PatternAnalyzer

/-- `PatternAnalyzer.extract_keywords`: same tokenization, but filtered against
the analyzer's own (smaller) stop-word list. -/
def extract_keywords (text : String) : List String :=
  dedupFirst ((findallAlpha3 text).filter (fun w => w ∉ analyzer_stop_words))

end PatternAnalyzer

/-- Python `','.join` / `', '.join` and friends. -/
def joinSep (sep : String) : List String → String
  | [] => ""
  | [s] => s
  | s :: rest => s ++ sep ++ joinSep sep rest

/-- Python `str.split(',')` (on a nonempty string). -/
def splitCommaAux (acc : List Char) : List Char → List String
  | [] => [String.mk acc.reverse]
  | c :: cs =>
    if c == ',' then String.mk acc.reverse :: splitCommaAux [] cs
    else splitCommaAux (c :: acc) cs

/-- Python `s.split(',')` for nonempty `s` (the source guards the empty case). -/
def splitComma (s : String) : List String :=
  splitCommaAux [] s.data

/-- Python `str.strip()`: remove leading and trailing whitespace. -/
def pyStrip (s : String) : String :=
  String.mk (((s.data.dropWhile Char.isWhitespace).reverse.dropWhile Char.isWhitespace).reverse)

/-- Python `str.lower()` (character-wise, ASCII). -/
def pyLower (s : String) : String :=
  String.mk (s.data.map Char.toLower)

/-- Row of the `Category` model. -/
structure Category where
  id : Nat
  name : String
  deriving DecidableEq, Repr

/-- Row of the `Ticket` model (the fields the heuristics read).  `day_of_week`
models `created_at.strftime('%A')`, a pure function of the creation time, kept
as a stored attribute; `created_at` is an abstract integer timestamp. -/
structure Ticket where
  id : Nat
  title : String
  description : String
  category : Option Nat
  status : String
  created_by : Nat
  created_at : Int
  day_of_week : String
  deriving DecidableEq, Repr

/-- Row of the `Solution` model (the fields the heuristics read). -/
structure Solution where
  id : Nat
  title : String
  description : String
  keywords : String
  category : Option Nat
  times_suggested : Nat
  times_successful : Nat
  is_active : Bool
  deriving DecidableEq, Repr

/-- The `Solution.success_rate` property of `apps/core/models.py`: `0.0` when
`times_suggested` is zero, otherwise `times_successful / times_suggested * 100`
(true division; there is no cap in the property itself). -/
def Solution.success_rate (s : Solution) : ℚ :=
  if s.times_suggested = 0 then 0
  else ((s.times_successful : ℚ) / (s.times_suggested : ℚ)) * 100

/-- Row of the `TicketSolution` model: one applied solution for one ticket,
with a tri-state outcome. -/
structure TicketSolution where
  ticket : Nat
  solution : Nat
  was_successful : Option Bool
  deriving DecidableEq, Repr

/-- Row of the `TicketPattern` model.  `pattern_data` (an informational JSON
blob written only at creation and never read back by the heuristics) is not
modelled; `suggested_solutions` is the many-to-many link, by solution id. -/
structure TicketPattern where
  pattern_type : String
  matching_keywords : String
  category : Option Nat
  suggested_solutions : List Nat
  confidence_score : ℚ
  times_matched : Nat
  times_helpful : Nat
  discovered_at : Int
  last_seen : Int
  is_active : Bool
  deriving DecidableEq, Repr

/-- The data store.  Querysets become list filters over these tables. -/
structure Db where
  categories : List Category
  tickets : List Ticket
  solutions : List Solution
  ticket_solutions : List TicketSolution
  patterns : List TicketPattern
  deriving DecidableEq, Repr

/-- Name of a category by id (`ticket.category.name`); the ORM guarantees the
foreign key resolves, so the default is never reached on well-formed stores. -/
def categoryName (db : Db) (cid : Nat) : String :=
  ((db.categories.find? (fun c => c.id == cid)).map (fun c => c.name)).getD ""

/-- One suggestion dictionary produced by `suggest_solutions`. -/
structure Suggestion where
  solution : Solution
  confidence_score : ℚ
  match_reason : String
  suggested_by : String
  deriving DecidableEq, Repr

/-- Python-dict deduplication used by `suggest_solutions` and
`find_historical_matches`: key by `key`, keep the first occurrence's position,
replace the stored value only on a strictly greater score. -/
def upsertBest {α : Type} (key : α → Nat) (score : α → ℚ) (acc : List α) (x : α) : List α :=
  if acc.any (fun y => key y == key x) then
    acc.map (fun y => if key y == key x && decide (score y < score x) then x else y)
  else acc ++ [x]

/-- Descending stable comparison on a rational rank. -/
def rankDesc {α : Type} (rank : α → ℚ) : α → α → Bool :=
  fun a b => decide (rank b ≤ rank a)

/-- `order_by('-times_successful', '-times_suggested')`. -/
def solutionOrderKey : Solution → Solution → Bool := fun a b =>
  decide (b.times_successful < a.times_successful) ||
    (decide (a.times_successful = b.times_successful) &&
      decide (b.times_suggested ≤ a.times_suggested))

namespace SolutionSuggestionEngine

/-- Strategy 1 of `suggest_solutions`: category-based matching. -/
def category_match_suggestions (db : Db) (ticket : Ticket) : List Suggestion :=
  match ticket.category with
  | none => []
  | some cid =>
    let category_solutions :=
      (sortByRank solutionOrderKey
        (db.solutions.filter (fun s => s.category == some cid && s.is_active))).take 5
    category_solutions.map (fun s =>
      { solution := s
        confidence_score := 7/10 + s.success_rate / 100 * (3/10)
        match_reason := "Same category: " ++ categoryName db cid
        suggested_by := "category_match" })

/-- `SolutionSuggestionEngine.find_keyword_matches`. -/
def find_keyword_matches (db : Db) (ticket_keywords : List String) :
    List (Solution × ℚ × List String) :=
  let raw_matches := (db.solutions.filter (fun s => s.is_active)).filterMap (fun s =>
    let solution_keywords :=
      extract_keywords (s.title ++ " " ++ s.description ++ " " ++ s.keywords)
    let common_keywords := ticket_keywords.filter (fun w => w ∈ solution_keywords)
    if common_keywords.isEmpty then none
    else
      let overlap_ratio : ℚ :=
        (common_keywords.length : ℚ) /
          ((max ticket_keywords.length solution_keywords.length : Nat) : ℚ)
      let success_bonus := s.success_rate / 100 * (3/10)
      some (s, min (19/20) (overlap_ratio * (7/10) + success_bonus), common_keywords))
  (sortByRank (rankDesc (fun m => m.2.1)) raw_matches).take 5

/-- `SolutionSuggestionEngine.find_pattern_matches`. -/
def find_pattern_matches (db : Db) (ticket_keywords : List String)
    (category : Option Nat) : List (Solution × ℚ × String) :=
  let patterns := db.patterns.filter (fun p =>
    p.is_active && decide ((60 : ℚ) ≤ p.confidence_score))
  let raw_matches := patterns.flatMap (fun p =>
    let pattern_keywords :=
      if p.matching_keywords == "" then []
      else (splitComma p.matching_keywords).map (fun kw => pyLower (pyStrip kw))
    let keyword_matches := ticket_keywords.filter (fun w => w ∈ pattern_keywords)
    let category_match :=
      match p.category with
      | none => false
      | some c => category == some c
    if !keyword_matches.isEmpty || category_match then
      let confidence :=
        p.confidence_score / 100 * (8/10) + (if category_match then 2/10 else 0)
      (p.suggested_solutions.filterMap
          (fun sid => db.solutions.find? (fun s => s.id == sid))).map
        (fun s => (s, min (19/20) confidence, p.pattern_type))
    else [])
  (sortByRank (rankDesc (fun m => m.2.1)) raw_matches).take 3

/-- `SolutionSuggestionEngine.find_historical_matches`. -/
def find_historical_matches (db : Db) (ticket_keywords : List String) :
    List (Solution × ℚ × String) :=
  let successful_applications :=
    db.ticket_solutions.filter (fun a => a.was_successful == some true)
  let raw_matches := successful_applications.filterMap (fun a =>
    match db.tickets.find? (fun t => t.id == a.ticket) with
    | none => none
    | some tk =>
      let historical_keywords := extract_keywords (tk.title ++ " " ++ tk.description)
      let common_keywords := ticket_keywords.filter (fun w => w ∈ historical_keywords)
      if 2 ≤ common_keywords.length then
        match db.solutions.find? (fun s => s.id == a.solution) with
        | none => none
        | some sol =>
          some (sol,
            min (17/20)
              ((common_keywords.length : ℚ) /
                  ((max ticket_keywords.length historical_keywords.length : Nat) : ℚ) *
                (6/10) + 2/10),
            "Similar to ticket #" ++ toString tk.id)
      else none)
  let unique_matches :=
    raw_matches.foldl (upsertBest (fun x => x.1.id) (fun x => x.2.1)) []
  (sortByRank (rankDesc (fun m => m.2.1)) unique_matches).take 3

/-- The raw candidate list of `suggest_solutions` before deduplication. -/
def suggestion_candidates (db : Db) (ticket : Ticket) : List Suggestion :=
  let ticket_keywords := extract_keywords (ticket.title ++ " " ++ ticket.description)
  category_match_suggestions db ticket
  ++ (find_keyword_matches db ticket_keywords).map (fun m =>
       { solution := m.1
         confidence_score := m.2.1
         match_reason := "Keyword match: " ++ joinSep ", " m.2.2
         suggested_by := "keyword_match" })
  ++ (find_pattern_matches db ticket_keywords ticket.category).map (fun m =>
       { solution := m.1
         confidence_score := m.2.1
         match_reason := "Pattern match: " ++ m.2.2
         suggested_by := "pattern_match" })
  ++ (find_historical_matches db ticket_keywords).map (fun m =>
       { solution := m.1
         confidence_score := m.2.1
         match_reason := "Historical success: " ++ m.2.2
         suggested_by := "historical_match" })

/-- The deduplication step of `suggest_solutions` (Python dict keyed by
`solution.id`, value replaced only on strictly greater confidence). -/
def merge_unique (suggestions : List Suggestion) : List Suggestion :=
  suggestions.foldl
    (upsertBest (fun x => x.solution.id) (fun x => x.confidence_score)) []

/-- `SolutionSuggestionEngine.suggest_solutions`: the four strategies, merged,
deduplicated, sorted by descending confidence and truncated to 10. -/
def suggest_solutions (db : Db) (ticket : Ticket) : List Suggestion :=
  (sortByRank (rankDesc (fun s => s.confidence_score))
    (merge_unique (suggestion_candidates db ticket))).take 10

/-- State-passing form of `suggest_solutions`: the source performs no ORM
write (no `save`, no update, no counter increment), so the embedding returns
the store unchanged alongside the result. -/
def suggest_solutions_run (db : Db) (ticket : Ticket) : List Suggestion × Db :=
  (suggest_solutions db ticket, db)

end SolutionSuggestionEngine

namespace PatternAnalyzer

/-- `self.min_pattern_confidence` of `PatternAnalyzer.__init__`. -/
def min_pattern_confidence : ℚ := 70

/-- `self.min_occurrences` of `PatternAnalyzer.__init__`. -/
def min_occurrences : Nat := 3

/-- Python true division, `none` exactly where Python raises
`ZeroDivisionError`. -/
def pyDiv (a b : ℚ) : Option ℚ :=
  if b = 0 then none else some (a / b)

/-- The text the analyzer extracts keywords from, per ticket. -/
def ticketText (t : Ticket) : String :=
  t.title ++ " " ++ t.description

/-- Keywords of one ticket, as extracted by the analyzer. -/
def ticketKeywords (t : Ticket) : List String :=
  extract_keywords (ticketText t)

/-- Keys of the `keyword_freq` grouping of `analyze_keyword_patterns`
(in first-appearance order). -/
def keywordKeys (window : List Ticket) : List String :=
  dedupFirst (window.flatMap ticketKeywords)

/-- The ticket list accumulated under one keyword by `keyword_freq`. -/
def keywordGroup (window : List Ticket) (kw : String) : List Ticket :=
  window.filter (fun t => kw ∈ ticketKeywords t)

/-- Lookup key of the keyword-pattern `get_or_create`. -/
def kwKey (kw : String) (p : TicketPattern) : Bool :=
  p.pattern_type == "KEYWORD" && p.matching_keywords == kw

/-- Update the first row matched by `k` (the row `get_or_create` returned). -/
def updateFirst {α : Type} (k : α → Bool) (f : α → α) : List α → List α
  | [] => []
  | p :: ps => if k p then f p :: ps else p :: updateFirst k f ps

/-- `PatternAnalyzer.find_common_solutions`: count successful applications of
each solution over the given tickets; keep those with count at least 2. -/
def find_common_solutions (db : Db) (tickets : List Ticket) : List Nat :=
  (dedupFirst ((tickets.flatMap (fun t =>
    db.ticket_solutions.filter (fun a =>
      a.ticket == t.id && a.was_successful == some true))).map
        (fun a => a.solution))).filter (fun sid =>
    2 ≤ ((tickets.flatMap (fun t =>
      db.ticket_solutions.filter (fun a =>
        a.ticket == t.id && a.was_successful == some true))).filter
          (fun a => a.solution == sid)).length)

/-- Count of resolved tickets in a group. -/
def resolvedCount (l : List Ticket) : Nat :=
  (l.filter (fun t => t.status == "RESOLVED")).length

/-- The `unique_together = ['ticket', 'solution']` constraint of
`TicketSolution` in `models.py`: no two application rows link the same
ticket and solution. -/
def applicationsUnique (db : Db) : Prop :=
  List.Pairwise (fun a b : TicketSolution =>
    ¬(a.ticket = b.ticket ∧ a.solution = b.solution)) db.ticket_solutions

/-- Solution `sid` has at least one successful application row on ticket
`t`. -/
def appliedSuccessfully (db : Db) (sid : Nat) (t : Ticket) : Bool :=
  db.ticket_solutions.any (fun a =>
    a.solution == sid && (a.ticket == t.id && a.was_successful == some true))

/-- Loop body of `analyze_keyword_patterns` for one keyword group. -/
def analyze_keyword_step (db : Db) (window : List Ticket) (now : Int)
    (kw : String) (store : List TicketPattern) :
    Option (Nat × List TicketPattern) :=
  if min_occurrences ≤ (keywordGroup window kw).length then
    match pyDiv ((keywordGroup window kw).length : ℚ) (window.length : ℚ),
        pyDiv ((resolvedCount (keywordGroup window kw)) : ℚ)
          (((keywordGroup window kw).length : ℚ)) with
    | some frac, some rfrac =>
      if min_pattern_confidence ≤ min 95 (frac * 100 + rfrac * 30) then
        if (store.find? (kwKey kw)).isSome then
          some (0, updateFirst (kwKey kw)
            (fun p => { p with
              times_matched := (keywordGroup window kw).length
              confidence_score := min 95 (frac * 100 + rfrac * 30)
              last_seen := now }) store)
        else
          some (1, store ++ [{
            pattern_type := "KEYWORD"
            matching_keywords := kw
            category := none
            suggested_solutions := find_common_solutions db (keywordGroup window kw)
            confidence_score := min 95 (frac * 100 + rfrac * 30)
            times_matched := (keywordGroup window kw).length
            times_helpful := 0
            discovered_at := now
            last_seen := now
            is_active := true }])
      else some (0, store)
    | _, _ => none
  else some (0, store)

/-- Fold of `analyze_keyword_step` over the keyword groups. -/
def analyze_keyword_pass (db : Db) (window : List Ticket) (now : Int) :
    List String → Nat → List TicketPattern → Option (Nat × List TicketPattern)
  | [], n, store => some (n, store)
  | kw :: rest, n, store =>
    match analyze_keyword_step db window now kw store with
    | none => none
    | some (c, store2) => analyze_keyword_pass db window now rest (n + c) store2

/-- `PatternAnalyzer.analyze_keyword_patterns`, acting on an explicit pattern
store and returning the number of patterns created. -/
def analyze_keyword_patterns (db : Db) (window : List Ticket) (now : Int)
    (store : List TicketPattern) : Option (Nat × List TicketPattern) :=
  analyze_keyword_pass db window now (keywordKeys window) 0 store

/-- Keys of the category grouping of `analyze_category_patterns`
(tickets with a null category are excluded by the queryset filter). -/
def categoryKeys (window : List Ticket) : List Nat :=
  dedupFirst (window.filterMap (fun t => t.category))

/-- Tickets of the window in one category. -/
def categoryGroup (window : List Ticket) (cid : Nat) : List Ticket :=
  window.filter (fun t => t.category == some cid)

/-- Items of Python's `Counter(l)` in first-appearance order. -/
def counterItems (l : List String) : List (String × Nat) :=
  (dedupFirst l).map (fun w => (w, l.count w))

/-- Python's `Counter(l).most_common(n)`: sort the items by descending count
and keep the first `n`. -/
def most_common (n : Nat) (l : List String) : List (String × Nat) :=
  (sortByRank (fun a b => decide (b.2 ≤ a.2)) (counterItems l)).take n

/-- Lookup key of the category-pattern `get_or_create`. -/
def catKey (cid : Nat) (p : TicketPattern) : Bool :=
  p.pattern_type == "CATEGORY" && p.category == some cid

/-- The `top_keywords` computation shared by the category and user
sub-analyses: keywords of the group's joined text, counted, the `n` most
common kept when they occur at least twice.  Because `extract_keywords`
already deduplicates, every count is 1 and this list is always empty — the
category and user sub-analyses can never persist a pattern. -/
def groupTopKeywords (n : Nat) (l : List Ticket) : List String :=
  ((most_common n (extract_keywords (joinSep " " (l.map ticketText)))).filter
    (fun kc => 2 ≤ kc.2)).map (fun kc => kc.1)

/-- Loop body of `analyze_category_patterns` for one category group. -/
def analyze_category_step (db : Db) (window : List Ticket) (now : Int)
    (cid : Nat) (store : List TicketPattern) :
    Option (Nat × List TicketPattern) :=
  if min_occurrences ≤ (categoryGroup window cid).length then
    match groupTopKeywords 10 (categoryGroup window cid) with
    | [] => some (0, store)
    | top0 :: toprest =>
      match pyDiv ((resolvedCount (categoryGroup window cid)) : ℚ)
          (((categoryGroup window cid).length : ℚ)) with
      | none => none
      | some rfrac =>
        if min_pattern_confidence ≤ min 95 (rfrac * 100) then
          if (store.find? (catKey cid)).isSome then some (0, store)
          else
            some (1, store ++ [{
              pattern_type := "CATEGORY"
              matching_keywords := joinSep "," (top0 :: toprest)
              category := some cid
              suggested_solutions := find_common_solutions db (categoryGroup window cid)
              confidence_score := min 95 (rfrac * 100)
              times_matched := (categoryGroup window cid).length
              times_helpful := 0
              discovered_at := now
              last_seen := now
              is_active := true }])
        else some (0, store)
  else some (0, store)

/-- Fold of `analyze_category_step` over the category groups. -/
def analyze_category_pass (db : Db) (window : List Ticket) (now : Int) :
    List Nat → Nat → List TicketPattern → Option (Nat × List TicketPattern)
  | [], n, store => some (n, store)
  | cid :: rest, n, store =>
    match analyze_category_step db window now cid store with
    | none => none
    | some (c, store2) => analyze_category_pass db window now rest (n + c) store2

/-- `PatternAnalyzer.analyze_category_patterns`. -/
def analyze_category_patterns (db : Db) (window : List Ticket) (now : Int)
    (store : List TicketPattern) : Option (Nat × List TicketPattern) :=
  analyze_category_pass db window now (categoryKeys window) 0 store

/-- Keys of the day-of-week grouping of `analyze_time_patterns`. -/
def dayKeys (window : List Ticket) : List String :=
  dedupFirst (window.map (fun t => t.day_of_week))

/-- Tickets of the window created on one day of the week. -/
def dayGroup (window : List Ticket) (day : String) : List Ticket :=
  window.filter (fun t => t.day_of_week == day)

/-- Category names of the tickets that have a category
(`[t.category.name for t in ticket_list if t.category]`). -/
def ticketCategoryNames (db : Db) (l : List Ticket) : List String :=
  l.filterMap (fun t => t.category.map (categoryName db))

/-- Lookup key of the time-pattern `get_or_create`. -/
def timeKey (mkw : String) (p : TicketPattern) : Bool :=
  p.pattern_type == "TIME" && p.matching_keywords == mkw

/-- Inner loop of `analyze_time_patterns` over the three most common
categories of an over-represented day. -/
def analyze_time_cats (now : Int) (day : String) (day_total : Nat) :
    List (String × Nat) → Nat → List TicketPattern →
      Option (Nat × List TicketPattern)
  | [], n, store => some (n, store)
  | (cname, count) :: rest, n, store =>
    if min_occurrences ≤ count then
      match pyDiv (count : ℚ) (day_total : ℚ) with
      | none => none
      | some q =>
        if (store.find? (timeKey (day ++ "_" ++ cname))).isSome then
          analyze_time_cats now day day_total rest n store
        else
          analyze_time_cats now day day_total rest (n + 1) (store ++ [{
            pattern_type := "TIME"
            matching_keywords := day ++ "_" ++ cname
            category := none
            suggested_solutions := []
            confidence_score := min 95 (q * 100)
            times_matched := count
            times_helpful := 0
            discovered_at := now
            last_seen := now
            is_active := true }])
    else analyze_time_cats now day day_total rest n store

/-- Loop body of `analyze_time_patterns` for one day of the week: a day is
over-represented when its count strictly exceeds 1.5 times the 7-day average;
no confidence gate appears in this sub-analysis. -/
def analyze_time_step (db : Db) (window : List Ticket) (now : Int)
    (day : String) (store : List TicketPattern) :
    Option (Nat × List TicketPattern) :=
  if ((window.length : ℚ) / 7) * (3/2) < ((dayGroup window day).length : ℚ) then
    analyze_time_cats now day (dayGroup window day).length
      (most_common 3 (ticketCategoryNames db (dayGroup window day))) 0 store
  else some (0, store)

/-- Fold of `analyze_time_step` over the day groups. -/
def analyze_time_pass (db : Db) (window : List Ticket) (now : Int) :
    List String → Nat → List TicketPattern → Option (Nat × List TicketPattern)
  | [], n, store => some (n, store)
  | day :: rest, n, store =>
    match analyze_time_step db window now day store with
    | none => none
    | some (c, store2) => analyze_time_pass db window now rest (n + c) store2

/-- `PatternAnalyzer.analyze_time_patterns`. -/
def analyze_time_patterns (db : Db) (window : List Ticket) (now : Int)
    (store : List TicketPattern) : Option (Nat × List TicketPattern) :=
  analyze_time_pass db window now (dayKeys window) 0 store

/-- Keys of the per-user grouping of `analyze_user_patterns`. -/
def userKeys (window : List Ticket) : List Nat :=
  dedupFirst (window.map (fun t => t.created_by))

/-- Tickets of the window created by one user. -/
def userGroup (window : List Ticket) (uid : Nat) : List Ticket :=
  window.filter (fun t => t.created_by == uid)

/-- Lookup key of the user-pattern `get_or_create`. -/
def userKey (mkw : String) (p : TicketPattern) : Bool :=
  p.pattern_type == "USER" && p.matching_keywords == mkw

/-- Loop body of `analyze_user_patterns` for one user: the gate is
`len(ticket_list) >= max(min_occurrences, 2 * average tickets per user)`
(the average is 0 when there are no users); no confidence gate appears in
this sub-analysis either. -/
def analyze_user_step (db : Db) (window : List Ticket) (now : Int)
    (uid : Nat) (store : List TicketPattern) :
    Option (Nat × List TicketPattern) :=
  if max (min_occurrences : ℚ)
      ((if (userKeys window).isEmpty then (0 : ℚ)
        else (window.length : ℚ) / ((userKeys window).length : ℚ)) * 2) ≤
      ((userGroup window uid).length : ℚ) then
    match groupTopKeywords 5 (userGroup window uid) with
    | [] => some (0, store)
    | k0 :: _ =>
      match pyDiv ((userGroup window uid).length : ℚ) ((window.length : ℚ)) with
      | none => none
      | some frac =>
        if (store.find? (userKey ("user_" ++ toString uid ++ "_" ++ k0))).isSome
          then some (0, store)
        else
          some (1, store ++ [{
            pattern_type := "USER"
            matching_keywords := "user_" ++ toString uid ++ "_" ++ k0
            category := none
            suggested_solutions := []
            confidence_score := min 90 (frac * 100 + 30)
            times_matched := (userGroup window uid).length
            times_helpful := 0
            discovered_at := now
            last_seen := now
            is_active := true }])
  else some (0, store)

/-- Fold of `analyze_user_step` over the user groups. -/
def analyze_user_pass (db : Db) (window : List Ticket) (now : Int) :
    List Nat → Nat → List TicketPattern → Option (Nat × List TicketPattern)
  | [], n, store => some (n, store)
  | uid :: rest, n, store =>
    match analyze_user_step db window now uid store with
    | none => none
    | some (c, store2) => analyze_user_pass db window now rest (n + c) store2

/-- `PatternAnalyzer.analyze_user_patterns`. -/
def analyze_user_patterns (db : Db) (window : List Ticket) (now : Int)
    (store : List TicketPattern) : Option (Nat × List TicketPattern) :=
  analyze_user_pass db window now (userKeys window) 0 store

/-- Result dictionary of `analyze_recent_tickets`. -/
structure AnalyzeResults where
  patterns_found : Nat
  tickets_analyzed : Nat
  deriving DecidableEq, Repr

/-- The trailing ticket window of `analyze_recent_tickets`
(`created_at__gte = now - days`). -/
def recentWindow (db : Db) (now days : Int) : List Ticket :=
  db.tickets.filter (fun t => decide (now - days ≤ t.created_at))

/-- `PatternAnalyzer.analyze_recent_tickets`: run the four sub-analyses over
the trailing window, threading the pattern store; `none` models an uncaught
`ZeroDivisionError`. -/
def analyze_recent_tickets (db : Db) (now days : Int) :
    Option (AnalyzeResults × Db) :=
  match analyze_keyword_patterns db (recentWindow db now days) now
      db.patterns with
  | none => none
  | some (n1, s1) =>
    match analyze_category_patterns db (recentWindow db now days) now s1 with
    | none => none
    | some (n2, s2) =>
      match analyze_time_patterns db (recentWindow db now days) now s2 with
      | none => none
      | some (n3, s3) =>
        match analyze_user_patterns db (recentWindow db now days) now s3 with
        | none => none
        | some (n4, s4) =>
          some ({ patterns_found := n1 + n2 + n3 + n4
                  tickets_analyzed := (recentWindow db now days).length },
                { db with patterns := s4 })

end PatternAnalyzer

/-! Properties of the keyword extractor (claims C8 and C4). -/

theorem toNat_char_ofNat_valid {n : Nat} (h : n.isValidChar) :
    (Char.ofNat n).toNat = n := by
  rw [Char.ofNat, dif_pos h]
  rfl

theorem toLower_isAlpha_isLower {c : Char} (h : (Char.toLower c).isAlpha) :
    (Char.toLower c).isLower := by
  unfold Char.toLower at *
  by_cases hc : c.toNat ≥ 65 ∧ c.toNat ≤ 90
  · rw [if_pos hc] at h ⊢
    have hv : (c.toNat + 32).isValidChar := by
      left
      have := hc.2
      omega
    have hval : (Char.ofNat (c.toNat + 32)).toNat = c.toNat + 32 :=
      toNat_char_ofNat_valid hv
    simp only [Char.isLower, Bool.and_eq_true, decide_eq_true_eq, ge_iff_le]
    constructor
    · show (97 : UInt32) ≤ (Char.ofNat (c.toNat + 32)).val
      simp only [UInt32.le_def, BitVec.le_def]
      show (97 : UInt32).toNat ≤ (Char.ofNat (c.toNat + 32)).toNat
      rw [hval]
      have h97 : (97 : UInt32).toNat = 97 := rfl
      rw [h97]
      have := hc.1
      omega
    · show (Char.ofNat (c.toNat + 32)).val ≤ (122 : UInt32)
      simp only [UInt32.le_def, BitVec.le_def]
      show (Char.ofNat (c.toNat + 32)).toNat ≤ (122 : UInt32).toNat
      rw [hval]
      have h122 : (122 : UInt32).toNat = 122 := rfl
      rw [h122]
      have := hc.2
      omega
  · rw [if_neg hc] at h ⊢
    rcases Bool.or_eq_true _ _ |>.mp h with hup | hlo
    · exfalso
      simp only [Char.isUpper, Bool.and_eq_true, decide_eq_true_eq, ge_iff_le] at hup
      apply hc
      have h1 : (65 : UInt32) ≤ c.val := hup.1
      have h2 : c.val ≤ (90 : UInt32) := hup.2
      simp only [UInt32.le_def, BitVec.le_def] at h1 h2
      exact ⟨h1, h2⟩
    · exact hlo

theorem wordRuns_chars (l : List Char) (acc : List Char) :
    ∀ r ∈ wordRuns acc l, ∀ c ∈ r, c ∈ acc ∨ c ∈ l := by
  induction l generalizing acc with
  | nil =>
    intro r hr c hc
    simp only [wordRuns] at hr
    by_cases ha : acc.isEmpty
    · simp [ha] at hr
    · rw [if_neg ha] at hr
      rcases List.mem_singleton.mp hr with rfl
      exact Or.inl (List.mem_reverse.mp hc)
  | cons c0 cs ih =>
    intro r hr c hc
    simp only [wordRuns] at hr
    by_cases hw : isWordChar c0
    · rw [if_pos hw] at hr
      rcases ih (c0 :: acc) r hr c hc with hacc | hcs
      · rcases List.mem_cons.mp hacc with rfl | hacc
        · exact Or.inr (List.mem_cons_self _ _)
        · exact Or.inl hacc
      · exact Or.inr (List.mem_cons_of_mem _ hcs)
    · rw [if_neg hw] at hr
      by_cases ha : acc.isEmpty
      · rw [if_pos ha] at hr
        rcases ih [] r hr c hc with h0 | hcs
        · exact absurd h0 (List.not_mem_nil c)
        · exact Or.inr (List.mem_cons_of_mem _ hcs)
      · rw [if_neg ha] at hr
        rcases List.mem_cons.mp hr with rfl | hr
        · exact Or.inl (List.mem_reverse.mp hc)
        · rcases ih [] r hr c hc with h0 | hcs
          · exact absurd h0 (List.not_mem_nil c)
          · exact Or.inr (List.mem_cons_of_mem _ hcs)

theorem findallAlpha3_shape {text : String} {w : String}
    (h : w ∈ findallAlpha3 text) :
    3 ≤ w.length ∧ ∀ c ∈ w.data, c.isLower := by
  rcases List.mem_filterMap.mp h with ⟨r, hr, hsome⟩
  by_cases h3 : 3 ≤ r.length
  · rw [if_pos h3] at hsome
    by_cases hall : r.all Char.isAlpha
    · rw [if_pos hall] at hsome
      cases hsome
      refine ⟨h3, fun c hc => ?_⟩
      have halpha : c.isAlpha := List.all_eq_true.mp hall c hc
      rcases wordRuns_chars _ _ r hr c hc with h0 | hmem
      · exact absurd h0 (List.not_mem_nil c)
      · rcases List.mem_map.mp hmem with ⟨c0, -, rfl⟩
        exact toLower_isAlpha_isLower halpha
    · rw [if_neg hall] at hsome
      cases hsome
  · rw [if_neg h3] at hsome
    cases hsome

/-- C8: for any text, the engine's `extract_keywords` returns a duplicate-free
list of lowercase terms, each at least 3 letters long, and none of them a
member of the fixed stop-word list. -/
theorem C8_extract_keywords_clean (text : String) :
    (SolutionSuggestionEngine.extract_keywords text).Nodup ∧
    ∀ w ∈ SolutionSuggestionEngine.extract_keywords text,
      3 ≤ w.length ∧ (∀ c ∈ w.data, c.isLower) ∧ w ∉ engine_stop_words := by
  refine ⟨nodup_dedupFirst _, fun w hw => ?_⟩
  have hmem := mem_dedupFirst.mp hw
  rcases List.mem_filter.mp hmem with ⟨htok, hstop⟩
  rcases findallAlpha3_shape htok with ⟨h3, hlower⟩
  refine ⟨h3, hlower, ?_⟩
  simpa using hstop

/-- C4 (divergence witness): the two keyword extractors are not the same
function.  On the text "cannot connect" the engine filters the stop word
"cannot" while the analyzer keeps it, although the analyzer's docstring says
"same as SolutionSuggestionEngine". -/
theorem C4_extractor_divergence :
    SolutionSuggestionEngine.extract_keywords "cannot connect" = ["connect"] ∧
    PatternAnalyzer.extract_keywords "cannot connect" = ["cannot", "connect"] ∧
    "cannot" ∈ PatternAnalyzer.extract_keywords "cannot connect" ∧
    "cannot" ∉ SolutionSuggestionEngine.extract_keywords "cannot connect" := by
  refine ⟨?_, ?_, ?_, ?_⟩ <;> decide

/-! Properties of `Solution.success_rate` (claim C3). -/

theorem success_rate_nonneg (s : Solution) : 0 ≤ s.success_rate := by
  unfold Solution.success_rate
  by_cases h : s.times_suggested = 0
  · simp [h]
  · rw [if_neg h]
    positivity

theorem success_rate_le_100 (s : Solution)
    (hinv : s.times_successful ≤ s.times_suggested) : s.success_rate ≤ 100 := by
  unfold Solution.success_rate
  by_cases h : s.times_suggested = 0
  · simp [h]
  · rw [if_neg h]
    have hpos : 0 < (s.times_suggested : ℚ) := by
      exact_mod_cast Nat.pos_of_ne_zero h
    have hle : (s.times_successful : ℚ) ≤ (s.times_suggested : ℚ) := by
      exact_mod_cast hinv
    have hdiv : (s.times_successful : ℚ) / (s.times_suggested : ℚ) ≤ 1 :=
      (div_le_one hpos).mpr hle
    nlinarith

/-- C3 (amended): `success_rate` is 0 when `times_suggested = 0` (the division
never executes then), equals `times_successful / times_suggested * 100`
otherwise, and stays at most 100 whenever the counter invariant
`times_successful ≤ times_suggested` holds — but the property itself applies
no cap (see the counterexample). -/
theorem C3_success_rate_amended (s : Solution) :
    (s.times_suggested = 0 → s.success_rate = 0) ∧
    (s.times_suggested ≠ 0 →
      s.success_rate = (s.times_successful : ℚ) / (s.times_suggested : ℚ) * 100) ∧
    (s.times_successful ≤ s.times_suggested → s.success_rate ≤ 100) :=
  ⟨fun h => by simp [Solution.success_rate, h],
   fun h => by simp [Solution.success_rate, h],
   fun hinv => success_rate_le_100 s hinv⟩

/-- A `Solution` row of the shape the repository's own `fix_solution_data.py`
script repairs: more recorded successes than suggestions. -/
def overcountedSolution : Solution :=
  { id := 1
    title := "restart router"
    description := ""
    keywords := ""
    category := none
    times_suggested := 2
    times_successful := 3
    is_active := true }

/-- C3 (counterexample): the model property has no cap at 100%.  With
`times_successful = 3` and `times_suggested = 2` the success rate is 150%.
(The cap exists only in the admin display method, not in
`Solution.success_rate`.) -/
theorem C3_success_rate_not_capped :
    overcountedSolution.success_rate = 150 ∧
    ¬ overcountedSolution.success_rate ≤ 100 := by
  have h : overcountedSolution.success_rate = 150 := by
    unfold Solution.success_rate overcountedSolution
    norm_num
  exact ⟨h, by rw [h]; norm_num⟩

/-- A well-behaved `Solution` row used to instantiate `C3_success_rate_amended`. -/
def halfSolution : Solution :=
  { id := 2
    title := "clear cache"
    description := ""
    keywords := ""
    category := none
    times_suggested := 4
    times_successful := 2
    is_active := true }

theorem C3_success_rate_amended_witness :
    halfSolution.success_rate =
      (halfSolution.times_successful : ℚ) / (halfSolution.times_suggested : ℚ) * 100 ∧
    halfSolution.success_rate ≤ 100 :=
  ⟨(C3_success_rate_amended halfSolution).2.1 (by decide),
   (C3_success_rate_amended halfSolution).2.2 (by decide)⟩

/-- C9: `suggest_solutions` performs no write: the state-passing embedding
returns the store unchanged for every ticket, so all stored records — in
particular every solution's `times_suggested` and `times_successful`
counters — are left exactly as they were. -/
theorem C9_suggest_solutions_read_only (db : Db) (ticket : Ticket) :
    (SolutionSuggestionEngine.suggest_solutions_run db ticket).2 = db ∧
    ∀ s ∈ ((SolutionSuggestionEngine.suggest_solutions_run db ticket).2).solutions,
      s ∈ db.solutions :=
  ⟨rfl, fun _ hs => hs⟩

/-! Bounds of the suggestion engine (claims C1 and C7). -/

/-- The counter invariant of the data model: a solution is never recorded as
successful more often than it was suggested. -/
def Db.countersWF (db : Db) : Prop :=
  ∀ s ∈ db.solutions, s.times_successful ≤ s.times_suggested

instance (db : Db) : Decidable (Db.countersWF db) :=
  List.decidableBAll _ _

theorem mem_upsertBest {α : Type} {key : α → Nat} {score : α → ℚ}
    {acc : List α} {y x : α} (hx : x ∈ upsertBest key score acc y) :
    x ∈ acc ∨ x = y := by
  unfold upsertBest at hx
  by_cases hany : acc.any (fun z => key z == key y)
  · rw [if_pos hany] at hx
    rcases List.mem_map.mp hx with ⟨z, hz, hzx⟩
    by_cases hcond : (key z == key y && decide (score z < score y)) = true
    · rw [if_pos hcond] at hzx
      exact Or.inr hzx.symm
    · rw [if_neg hcond] at hzx
      exact Or.inl (hzx ▸ hz)
  · rw [if_neg hany] at hx
    rcases List.mem_append.mp hx with h | h
    · exact Or.inl h
    · exact Or.inr (List.mem_singleton.mp h)

theorem mem_foldl_upsertBest {α : Type} (key : α → Nat) (score : α → ℚ) :
    ∀ (l acc : List α), ∀ x ∈ l.foldl (upsertBest key score) acc,
      x ∈ acc ∨ x ∈ l := by
  intro l
  induction l with
  | nil => exact fun acc x hx => Or.inl hx
  | cons y ys ih =>
    intro acc x hx
    rcases ih (upsertBest key score acc y) x hx with hacc | hl
    · rcases mem_upsertBest hacc with h | rfl
      · exact Or.inl h
      · exact Or.inr (List.mem_cons_self _ _)
    · exact Or.inr (List.mem_cons_of_mem _ hl)

theorem category_match_bounds {db : Db} {ticket : Ticket}
    (hc : Db.countersWF db) :
    ∀ x ∈ SolutionSuggestionEngine.category_match_suggestions db ticket,
      0 ≤ x.confidence_score ∧ x.confidence_score ≤ 1 := by
  intro x hx
  unfold SolutionSuggestionEngine.category_match_suggestions at hx
  rcases hcat : ticket.category with - | cid
  · rw [hcat] at hx
    exact absurd hx (List.not_mem_nil x)
  · rw [hcat] at hx
    rcases List.mem_map.mp hx with ⟨s, hs, rfl⟩
    have hsol : s ∈ db.solutions := by
      have h1 := List.take_subset 5 _ hs
      have h2 := mem_sortByRank.mp h1
      exact List.mem_of_mem_filter h2
    have h0 := success_rate_nonneg s
    have h100 := success_rate_le_100 s (hc s hsol)
    constructor
    · show (0 : ℚ) ≤ 7/10 + s.success_rate / 100 * (3/10)
      nlinarith
    · show (7/10 : ℚ) + s.success_rate / 100 * (3/10) ≤ 1
      nlinarith

theorem min_combo_bounds {cap a b : ℚ} (hcap0 : 0 ≤ cap) (hcap1 : cap ≤ 1)
    (ha : 0 ≤ a) (hb : 0 ≤ b) :
    0 ≤ min cap (a + b) ∧ min cap (a + b) ≤ 1 :=
  ⟨le_min hcap0 (add_nonneg ha hb), le_trans (min_le_left _ _) hcap1⟩

theorem keyword_matches_bounds {db : Db} {tkw : List String} :
    ∀ m ∈ SolutionSuggestionEngine.find_keyword_matches db tkw,
      0 ≤ m.2.1 ∧ m.2.1 ≤ 1 := by
  intro m hm
  unfold SolutionSuggestionEngine.find_keyword_matches at hm
  have hm2 := mem_sortByRank.mp (List.take_subset 5 _ hm)
  rcases List.mem_filterMap.mp hm2 with ⟨s, -, hsome⟩
  by_cases hempty : (tkw.filter (fun w =>
      w ∈ SolutionSuggestionEngine.extract_keywords
        (s.title ++ " " ++ s.description ++ " " ++ s.keywords))).isEmpty
  · simp only [hempty, if_pos] at hsome
    cases hsome
  · rw [if_neg hempty] at hsome
    cases hsome
    refine min_combo_bounds (by norm_num) (by norm_num) (by positivity) ?_
    exact mul_nonneg (div_nonneg (success_rate_nonneg s) (by norm_num)) (by norm_num)

theorem pattern_matches_bounds {db : Db} {tkw : List String} {cat : Option Nat} :
    ∀ m ∈ SolutionSuggestionEngine.find_pattern_matches db tkw cat,
      0 ≤ m.2.1 ∧ m.2.1 ≤ 1 := by
  intro m hm
  unfold SolutionSuggestionEngine.find_pattern_matches at hm
  have hm2 := mem_sortByRank.mp (List.take_subset 3 _ hm)
  rcases List.mem_flatMap.mp hm2 with ⟨p, hp, hx⟩
  have hconf : (60 : ℚ) ≤ p.confidence_score := by
    have := (List.mem_filter.mp hp).2
    simp only [Bool.and_eq_true, decide_eq_true_eq] at this
    exact this.2
  by_cases hcond : (!(tkw.filter (fun w => w ∈
      (if p.matching_keywords == "" then []
       else (splitComma p.matching_keywords).map
         (fun kw => pyLower (pyStrip kw))))).isEmpty ||
      (match p.category with
       | none => false
       | some c => cat == some c)) = true
  · rw [if_pos hcond] at hx
    rcases List.mem_map.mp hx with ⟨s, -, rfl⟩
    refine min_combo_bounds (by norm_num) (by norm_num) (by nlinarith) ?_
    cases hcmv : (match p.category with
        | none => false
        | some c => cat == some c) with
    | false => simp [hcmv]
    | true => norm_num [hcmv]
  · rw [if_neg hcond] at hx
    exact absurd hx (List.not_mem_nil m)

theorem historical_matches_bounds {db : Db} {tkw : List String} :
    ∀ m ∈ SolutionSuggestionEngine.find_historical_matches db tkw,
      0 ≤ m.2.1 ∧ m.2.1 ≤ 1 := by
  intro m hm
  unfold SolutionSuggestionEngine.find_historical_matches at hm
  have hm2 := mem_sortByRank.mp (List.take_subset 3 _ hm)
  rcases mem_foldl_upsertBest _ _ _ _ m hm2 with h0 | hraw
  · exact absurd h0 (List.not_mem_nil m)
  · rcases List.mem_filterMap.mp hraw with ⟨a, -, hsome⟩
    split at hsome
    · cases hsome
    · split at hsome
      · lift_lets at hsome
        extract_lets hk ck at hsome
        split at hsome
        · cases hsome
        · cases hsome
      · lift_lets at hsome
        extract_lets hk ck at hsome
        split at hsome
        · cases hsome
          exact min_combo_bounds (by norm_num) (by norm_num) (by positivity)
            (by norm_num)
        · cases hsome

theorem suggestion_candidates_bounds {db : Db} {ticket : Ticket}
    (hc : Db.countersWF db) :
    ∀ x ∈ SolutionSuggestionEngine.suggestion_candidates db ticket,
      0 ≤ x.confidence_score ∧ x.confidence_score ≤ 1 := by
  intro x hx
  unfold SolutionSuggestionEngine.suggestion_candidates at hx
  rcases List.mem_append.mp hx with hx | hhist
  · rcases List.mem_append.mp hx with hx | hpat
    · rcases List.mem_append.mp hx with hcatm | hkw
      · exact category_match_bounds hc x hcatm
      · rcases List.mem_map.mp hkw with ⟨m, hm, rfl⟩
        exact keyword_matches_bounds m hm
    · rcases List.mem_map.mp hpat with ⟨m, hm, rfl⟩
      exact pattern_matches_bounds m hm
  · rcases List.mem_map.mp hhist with ⟨m, hm, rfl⟩
    exact historical_matches_bounds m hm

/-- C1: for every ticket (over a store satisfying the counter invariant),
`suggest_solutions` returns at most 10 entries, every confidence score lies in
`[0, 1]`, and the entries are sorted non-increasingly by confidence. -/
theorem C1_suggest_solutions_bounded_sorted (db : Db) (ticket : Ticket)
    (hc : Db.countersWF db) :
    (SolutionSuggestionEngine.suggest_solutions db ticket).length ≤ 10 ∧
    (∀ x ∈ SolutionSuggestionEngine.suggest_solutions db ticket,
      0 ≤ x.confidence_score ∧ x.confidence_score ≤ 1) ∧
    (SolutionSuggestionEngine.suggest_solutions db ticket).Pairwise
      (fun a b => b.confidence_score ≤ a.confidence_score) := by
  unfold SolutionSuggestionEngine.suggest_solutions
  refine ⟨List.length_take_le _ _, fun x hx => ?_, ?_⟩
  · have h1 := mem_sortByRank.mp (List.take_subset 10 _ hx)
    rcases mem_foldl_upsertBest _ _ _ _ x h1 with h0 | hcand
    · exact absurd h0 (List.not_mem_nil x)
    · exact suggestion_candidates_bounds hc x hcand
  · have hsorted := @pairwise_sortByRank Suggestion
      (rankDesc (fun s : Suggestion => s.confidence_score))
      (fun a b c hab hbc => by
        simp only [rankDesc, decide_eq_true_eq] at *
        exact le_trans hbc hab)
      (fun a b => by
        simp only [rankDesc, decide_eq_true_eq]
        exact le_total _ _)
      (SolutionSuggestionEngine.merge_unique
        (SolutionSuggestionEngine.suggestion_candidates db ticket))
    have htake := hsorted.sublist (List.take_sublist 10 _) |>.imp
      (fun h => by simpa [rankDesc] using h)
    exact htake

/-- Concrete store used to instantiate the suggestion-engine theorems. -/
def demoCategory : Category := { id := 1, name := "hardware" }

def demoSolution : Solution :=
  { id := 10
    title := "printer fix"
    description := "turn it off and on"
    keywords := "printer, jam"
    category := some 1
    times_suggested := 5
    times_successful := 4
    is_active := true }

def demoPattern : TicketPattern :=
  { pattern_type := "KEYWORD"
    matching_keywords := "printer"
    category := none
    suggested_solutions := [10]
    confidence_score := 80
    times_matched := 4
    times_helpful := 0
    discovered_at := 0
    last_seen := 0
    is_active := true }

def demoTicket : Ticket :=
  { id := 1
    title := "printer jam"
    description := "the printer is jammed"
    category := some 1
    status := "OPEN"
    created_by := 3
    created_at := 50
    day_of_week := "Monday" }

def demoDb : Db :=
  { categories := [demoCategory]
    tickets := [demoTicket]
    solutions := [demoSolution]
    ticket_solutions := []
    patterns := [demoPattern] }

theorem C1_suggest_solutions_bounded_sorted_witness :
    (SolutionSuggestionEngine.suggest_solutions demoDb demoTicket).length ≤ 10 ∧
    (∀ x ∈ SolutionSuggestionEngine.suggest_solutions demoDb demoTicket,
      0 ≤ x.confidence_score ∧ x.confidence_score ≤ 1) ∧
    (SolutionSuggestionEngine.suggest_solutions demoDb demoTicket).Pairwise
      (fun a b => b.confidence_score ≤ a.confidence_score) :=
  C1_suggest_solutions_bounded_sorted demoDb demoTicket (by decide)

/-! Dictionary-merge lemmas (claim C7). -/

/-- The running best of a Python-dict value under strict replacement: the
value left in the dict after feeding `ls` into an entry holding `e`. -/
def runBest {α : Type} (score : α → ℚ) (e : α) : List α → α
  | [] => e
  | x :: xs => runBest score (if score e < score x then x else e) xs

theorem runBest_mem {α : Type} (score : α → ℚ) (e : α) (ls : List α) :
    runBest score e ls ∈ e :: ls := by
  induction ls generalizing e with
  | nil => simp [runBest]
  | cons x xs ih =>
    show runBest score (if score e < score x then x else e) xs ∈ e :: x :: xs
    rcases List.mem_cons.mp (ih (if score e < score x then x else e)) with h | h
    · rw [h]
      by_cases hs : score e < score x
      · rw [if_pos hs]
        exact List.mem_cons_of_mem _ (List.mem_cons_self _ _)
      · rw [if_neg hs]
        exact List.mem_cons_self _ _
    · exact List.mem_cons_of_mem _ (List.mem_cons_of_mem _ h)

theorem runBest_maximal {α : Type} (score : α → ℚ) (e : α) (ls : List α) :
    ∀ y ∈ e :: ls, score y ≤ score (runBest score e ls) := by
  induction ls generalizing e with
  | nil =>
    intro y hy
    rcases List.mem_singleton.mp hy with rfl
    exact le_refl _
  | cons x xs ih =>
    intro y hy
    show score y ≤ score (runBest score (if score e < score x then x else e) xs)
    have hstep := ih (if score e < score x then x else e)
    have hex : score e ≤
        score (runBest score (if score e < score x then x else e) xs) := by
      refine le_trans ?_ (hstep _ (List.mem_cons_self _ _))
      by_cases hs : score e < score x
      · rw [if_pos hs]
        exact le_of_lt hs
      · rw [if_neg hs]
    have hxx : score x ≤
        score (runBest score (if score e < score x then x else e) xs) := by
      refine le_trans ?_ (hstep _ (List.mem_cons_self _ _))
      by_cases hs : score e < score x
      · rw [if_pos hs]
      · rw [if_neg hs]
        exact le_of_not_lt hs
    rcases List.mem_cons.mp hy with rfl | hy
    · exact hex
    · rcases List.mem_cons.mp hy with rfl | hy
      · exact hxx
      · exact hstep y (List.mem_cons_of_mem _ hy)

theorem upsertBest_key_map {α : Type} (key : α → Nat) (score : α → ℚ)
    (x y : α) :
    key (if (key y == key x && decide (score y < score x)) = true then x else y)
      = key y := by
  by_cases hc : (key y == key x && decide (score y < score x)) = true
  · rw [if_pos hc]
    exact (eq_of_beq (Bool.and_eq_true _ _ |>.mp hc).1).symm
  · rw [if_neg hc]

theorem filter_upsertBest_other {α : Type} {key : α → Nat} {score : α → ℚ}
    {acc : List α} {x : α} {k : Nat} (hk : key x ≠ k) :
    (upsertBest key score acc x).filter (fun y => key y == k) =
      acc.filter (fun y => key y == k) := by
  unfold upsertBest
  by_cases hae : acc.any (fun z => key z == key x) = true
  · rw [hae, if_pos rfl, List.filter_map]
    have hcomp : ((fun y => key y == k) ∘
        fun y => if (key y == key x && decide (score y < score x)) = true
          then x else y) = fun y => key y == k := by
      funext y
      show (key (if (key y == key x && decide (score y < score x)) = true
        then x else y) == k) = (key y == k)
      rw [upsertBest_key_map key score x y]
    rw [hcomp]
    refine Eq.trans (List.map_congr_left ?_) (List.map_id _)
    intro y hy
    have hyk : key y = k := eq_of_beq (List.mem_filter.mp hy).2
    have hfalse : (key y == key x) = false := by
      refine beq_eq_false_iff_ne.mpr ?_
      rw [hyk]
      exact fun h => hk h.symm
    simp [hfalse]
  · rw [Bool.not_eq_true] at hae
    rw [hae, if_neg Bool.false_ne_true, List.filter_append]
    have hx : [x].filter (fun y => key y == k) = [] := by
      simp only [List.filter_cons, List.filter_nil]
      rw [beq_eq_false_iff_ne.mpr hk]
      simp
    rw [hx, List.append_nil]

theorem filter_upsertBest_new {α : Type} {key : α → Nat} {score : α → ℚ}
    {acc : List α} {x : α}
    (hf : acc.filter (fun y => key y == key x) = []) :
    (upsertBest key score acc x).filter (fun y => key y == key x) = [x] := by
  unfold upsertBest
  have hnone : acc.any (fun z => key z == key x) = false := by
    rw [Bool.eq_false_iff]
    intro hc
    rcases List.any_eq_true.mp hc with ⟨z, hz, hzk⟩
    have hzm : z ∈ acc.filter (fun y => key y == key x) :=
      List.mem_filter.mpr ⟨hz, hzk⟩
    rw [hf] at hzm
    exact List.not_mem_nil z hzm
  rw [hnone, if_neg Bool.false_ne_true, List.filter_append, hf]
  simp

theorem filter_upsertBest_hit {α : Type} {key : α → Nat} {score : α → ℚ}
    {acc : List α} {x e : α}
    (hf : acc.filter (fun y => key y == key x) = [e]) :
    (upsertBest key score acc x).filter (fun y => key y == key x) =
      [if score e < score x then x else e] := by
  unfold upsertBest
  have he_mem_f : e ∈ acc.filter (fun y => key y == key x) := by
    rw [hf]
    exact List.mem_cons_self _ _
  have hsome2 : acc.any (fun z => key z == key x) = true :=
    List.any_eq_true.mpr
      ⟨e, List.mem_of_mem_filter he_mem_f, (List.mem_filter.mp he_mem_f).2⟩
  rw [hsome2, if_pos rfl, List.filter_map]
  have hcomp : ((fun y => key y == key x) ∘
      fun y => if (key y == key x && decide (score y < score x)) = true
        then x else y) = fun y => key y == key x := by
    funext y
    show (key (if (key y == key x && decide (score y < score x)) = true
      then x else y) == key x) = (key y == key x)
    rw [upsertBest_key_map key score x y]
  rw [hcomp, hf]
  have he : (key e == key x) = true := (List.mem_filter.mp he_mem_f).2
  simp only [List.map_cons, List.map_nil, he, Bool.true_and]
  by_cases hs : score e < score x
  · simp [hs]
  · simp [hs]

theorem filter_upsertBest_len {α : Type} {key : α → Nat} {score : α → ℚ}
    (acc : List α) (x : α) (k : Nat)
    (hinv : (acc.filter (fun y => key y == k)).length ≤ 1) :
    ((upsertBest key score acc x).filter (fun y => key y == k)).length ≤ 1 := by
  by_cases hk : key x = k
  · subst hk
    rcases hf : acc.filter (fun y => key y == key x) with - | ⟨e, rest⟩
    · rw [filter_upsertBest_new hf]
      simp
    · have hrest : rest = [] := by
        rw [hf] at hinv
        simp only [List.length_cons] at hinv
        exact List.length_eq_zero.mp (by omega)
      subst hrest
      rw [filter_upsertBest_hit hf]
      simp
  · rw [filter_upsertBest_other hk]
    exact hinv

theorem filter_foldl_upsertBest {α : Type} (key : α → Nat) (score : α → ℚ) :
    ∀ (l acc : List α) (k : Nat),
      (acc.filter (fun y => key y == k)).length ≤ 1 →
      (l.foldl (upsertBest key score) acc).filter (fun y => key y == k) =
        match acc.filter (fun y => key y == k),
            l.filter (fun x => key x == k) with
        | [], [] => []
        | e :: _, ls => [runBest score e ls]
        | [], x :: xs => [runBest score x xs] := by
  intro l
  induction l with
  | nil =>
    intro acc k hinv
    simp only [List.foldl_nil, List.filter_nil]
    rcases hf : acc.filter (fun y => key y == k) with - | ⟨e, rest⟩
    · rfl
    · have hrest : rest = [] := by
        rw [hf] at hinv
        simp only [List.length_cons] at hinv
        exact List.length_eq_zero.mp (by omega)
      subst hrest
      rfl
  | cons x xs ih =>
    intro acc k hinv
    simp only [List.foldl_cons]
    rw [ih (upsertBest key score acc x) k (filter_upsertBest_len acc x k hinv)]
    by_cases hk : key x = k
    · subst hk
      have hfx : (key x == key x) = true := beq_self_eq_true _
      rcases hf : acc.filter (fun y => key y == key x) with - | ⟨e, rest⟩
      · rw [filter_upsertBest_new hf]
        simp only [List.filter_cons, hfx, if_pos]
      · have hrest : rest = [] := by
          rw [hf] at hinv
          simp only [List.length_cons] at hinv
          exact List.length_eq_zero.mp (by omega)
        subst hrest
        rw [filter_upsertBest_hit hf]
        simp only [List.filter_cons, hfx, if_pos]
        rfl
    · rw [filter_upsertBest_other hk]
      have hneg : (key x == k) = false := beq_eq_false_iff_ne.mpr hk
      simp only [List.filter_cons, hneg]
      rfl

/-- C7: in the merged dictionary of `suggest_solutions`, a solution produced
by one or more strategies survives as exactly one entry, namely an occurrence
carrying the maximal confidence score among all its occurrences, together with
that occurrence's match reason and method. -/
theorem C7_duplicate_merge (db : Db) (ticket : Ticket) (sid : Nat)
    (hocc : (SolutionSuggestionEngine.suggestion_candidates db ticket).filter
      (fun s => s.solution.id == sid) ≠ []) :
    ∃ e, (SolutionSuggestionEngine.merge_unique
        (SolutionSuggestionEngine.suggestion_candidates db ticket)).filter
        (fun s => s.solution.id == sid) = [e] ∧
      e ∈ SolutionSuggestionEngine.suggestion_candidates db ticket ∧
      e.solution.id = sid ∧
      ∀ x ∈ SolutionSuggestionEngine.suggestion_candidates db ticket,
        x.solution.id = sid → x.confidence_score ≤ e.confidence_score := by
  rcases hf : (SolutionSuggestionEngine.suggestion_candidates db ticket).filter
      (fun s => s.solution.id == sid) with - | ⟨x, xs⟩
  · exact absurd hf hocc
  · have hm := filter_foldl_upsertBest (fun s => s.solution.id)
      (fun s => s.confidence_score)
      (SolutionSuggestionEngine.suggestion_candidates db ticket) [] sid
      (by simp)
    rw [List.filter_nil, hf] at hm
    refine ⟨runBest (fun s => s.confidence_score) x xs, hm, ?_, ?_, ?_⟩
    · have h1 : runBest (fun s => s.confidence_score) x xs ∈ x :: xs :=
        runBest_mem _ x xs
      have h2 := hf ▸ h1
      exact List.mem_of_mem_filter h2
    · have h1 : runBest (fun s => s.confidence_score) x xs ∈ x :: xs :=
        runBest_mem _ x xs
      have h2 := hf ▸ h1
      exact eq_of_beq (List.mem_filter.mp h2).2
    · intro z hz hzid
      have hzf : z ∈ x :: xs := by
        rw [← hf]
        exact List.mem_filter.mpr ⟨hz, beq_iff_eq.mpr hzid⟩
      exact runBest_maximal _ x xs z hzf

namespace PatternAnalyzer

/-- Items of a `Counter` over an `extract_keywords` result all have count 1,
because `extract_keywords` deduplicates its output. -/
theorem counterItems_extract_count_le_one (text : String) :
    ∀ kc ∈ counterItems (extract_keywords text), kc.2 ≤ 1 := by
  intro kc hkc
  unfold counterItems at hkc
  rcases List.mem_map.mp hkc with ⟨w, -, rfl⟩
  show (extract_keywords text).count w ≤ 1
  unfold extract_keywords
  exact count_dedupFirst_le_one _ w

/-- Dead code in the source: the `top_keywords` filter of the category and
user sub-analyses requires a keyword counted at least twice in a
deduplicated list, so it is always empty. -/
theorem groupTopKeywords_nil (n : Nat) (l : List Ticket) :
    groupTopKeywords n l = [] := by
  unfold groupTopKeywords
  have h : ∀ kc ∈ most_common n
      (extract_keywords (joinSep " " (l.map ticketText))), ¬ (2 ≤ kc.2) := by
    intro kc hkc
    have h1 : kc ∈ counterItems (extract_keywords (joinSep " " (l.map ticketText))) := by
      unfold most_common at hkc
      exact mem_sortByRank.mp (List.take_subset _ _ hkc)
    have h2 := counterItems_extract_count_le_one _ kc h1
    omega
  rw [List.filter_eq_nil_iff.mpr (fun a ha => by
    simp only [decide_eq_true_eq]
    exact h a ha)]
  rfl

/-- `analyze_category_patterns` can never persist a pattern: each step is the
identity on the store and creates nothing. -/
theorem analyze_category_step_eq (db : Db) (window : List Ticket) (now : Int)
    (cid : Nat) (store : List TicketPattern) :
    analyze_category_step db window now cid store = some (0, store) := by
  unfold analyze_category_step
  rw [groupTopKeywords_nil]
  split
  · rfl
  · rfl

theorem analyze_category_pass_eq (db : Db) (window : List Ticket) (now : Int) :
    ∀ (keys : List Nat) (n : Nat) (store : List TicketPattern),
      analyze_category_pass db window now keys n store = some (n, store) := by
  intro keys
  induction keys with
  | nil =>
    intro n store
    rfl
  | cons c rest ih =>
    intro n store
    unfold analyze_category_pass
    rw [analyze_category_step_eq db window now c store]
    show analyze_category_pass db window now rest (n + 0) store = some (n, store)
    rw [Nat.add_zero]
    exact ih n store

theorem analyze_category_patterns_eq (db : Db) (window : List Ticket)
    (now : Int) (store : List TicketPattern) :
    analyze_category_patterns db window now store = some (0, store) :=
  analyze_category_pass_eq db window now (categoryKeys window) 0 store

/-- `analyze_user_patterns` can never persist a pattern either, for the same
reason. -/
theorem analyze_user_step_eq (db : Db) (window : List Ticket) (now : Int)
    (uid : Nat) (store : List TicketPattern) :
    analyze_user_step db window now uid store = some (0, store) := by
  unfold analyze_user_step
  rw [groupTopKeywords_nil]
  split
  · split
    · rfl
    · rfl
  · split
    · rfl
    · rfl

theorem analyze_user_pass_eq (db : Db) (window : List Ticket) (now : Int) :
    ∀ (keys : List Nat) (n : Nat) (store : List TicketPattern),
      analyze_user_pass db window now keys n store = some (n, store) := by
  intro keys
  induction keys with
  | nil =>
    intro n store
    rfl
  | cons u rest ih =>
    intro n store
    unfold analyze_user_pass
    rw [analyze_user_step_eq db window now u store]
    show analyze_user_pass db window now rest (n + 0) store = some (n, store)
    rw [Nat.add_zero]
    exact ih n store

theorem analyze_user_patterns_eq (db : Db) (window : List Ticket)
    (now : Int) (store : List TicketPattern) :
    analyze_user_patterns db window now store = some (0, store) :=
  analyze_user_pass_eq db window now (userKeys window) 0 store

/-- Rows of `updateFirst` are old rows or the image of an old row that
satisfies the key. -/
theorem mem_updateFirst {α : Type} (k : α → Bool) (f : α → α) :
    ∀ (l : List α), ∀ x ∈ updateFirst k f l,
      x ∈ l ∨ ∃ y, y ∈ l ∧ k y = true ∧ x = f y := by
  intro l
  induction l with
  | nil =>
    intro x hx
    simp [updateFirst] at hx
  | cons p ps ih =>
    intro x hx
    unfold updateFirst at hx
    by_cases hk : k p
    · rw [if_pos hk] at hx
      rcases List.mem_cons.mp hx with rfl | hx
      · exact Or.inr ⟨p, List.mem_cons_self _ _, hk, rfl⟩
      · exact Or.inl (List.mem_cons_of_mem _ hx)
    · rw [if_neg hk] at hx
      rcases List.mem_cons.mp hx with rfl | hx
      · exact Or.inl (List.mem_cons_self _ _)
      · rcases ih x hx with h | ⟨y, hy, hky, rfl⟩
        · exact Or.inl (List.mem_cons_of_mem _ h)
        · exact Or.inr ⟨y, List.mem_cons_of_mem _ hy, hky, rfl⟩

/-- Rows after one keyword step: an untouched old row, or a created/updated
keyword row that passed both the occurrence and confidence gates. -/
theorem analyze_keyword_step_rows {db : Db} {window : List Ticket} {now : Int}
    {kw : String} {store : List TicketPattern} {n : Nat}
    {store2 : List TicketPattern}
    (h : analyze_keyword_step db window now kw store = some (n, store2)) :
    ∀ p ∈ store2, p ∈ store ∨
      (p.pattern_type = "KEYWORD" ∧ 3 ≤ p.times_matched ∧
        70 ≤ p.confidence_score) := by
  unfold analyze_keyword_step at h
  split at h
  · rename_i hsize
    split at h
    · split at h
      · rename_i hgate
        split at h
        · cases h
          intro p hp
          rcases mem_updateFirst _ _ _ p hp with hold | ⟨y, hy, hky, rfl⟩
          · exact Or.inl hold
          · right
            have hty : y.pattern_type = "KEYWORD" := by
              unfold kwKey at hky
              exact eq_of_beq (Bool.and_eq_true _ _ |>.mp hky).1
            exact ⟨hty, hsize, hgate⟩
        · cases h
          intro p hp
          rcases List.mem_append.mp hp with hold | hnew
          · exact Or.inl hold
          · rcases List.mem_singleton.mp hnew with rfl
            exact Or.inr ⟨rfl, hsize, hgate⟩
      · cases h
        intro p hp
        exact Or.inl hp
    · exact Option.noConfusion h
  · cases h
    intro p hp
    exact Or.inl hp

theorem analyze_keyword_pass_rows {db : Db} {window : List Ticket} {now : Int} :
    ∀ (keys : List String) (n : Nat) (store : List TicketPattern)
      (n2 : Nat) (store2 : List TicketPattern),
      analyze_keyword_pass db window now keys n store = some (n2, store2) →
      ∀ p ∈ store2, p ∈ store ∨
        (p.pattern_type = "KEYWORD" ∧ 3 ≤ p.times_matched ∧
          70 ≤ p.confidence_score) := by
  intro keys
  induction keys with
  | nil =>
    intro n store n2 store2 h p hp
    cases h
    exact Or.inl hp
  | cons kw rest ih =>
    intro n store n2 store2 h p hp
    unfold analyze_keyword_pass at h
    split at h
    · exact Option.noConfusion h
    · rename_i c store1 heq
      rcases ih _ _ _ _ h p hp with hold | hP
      · exact analyze_keyword_step_rows heq p hold
      · exact Or.inr hP

theorem analyze_keyword_patterns_rows {db : Db} {window : List Ticket}
    {now : Int} {store : List TicketPattern} {n : Nat}
    {store2 : List TicketPattern}
    (h : analyze_keyword_patterns db window now store = some (n, store2)) :
    ∀ p ∈ store2, p ∈ store ∨
      (p.pattern_type = "KEYWORD" ∧ 3 ≤ p.times_matched ∧
        70 ≤ p.confidence_score) :=
  analyze_keyword_pass_rows _ _ _ _ _ h

/-- Rows after the inner time loop: old rows, or created time rows with the
occurrence gate (but no confidence gate). -/
theorem analyze_time_cats_rows {now : Int} {day : String} {day_total : Nat} :
    ∀ (cats : List (String × Nat)) (n : Nat) (store : List TicketPattern)
      (n2 : Nat) (store2 : List TicketPattern),
      analyze_time_cats now day day_total cats n store = some (n2, store2) →
      ∀ p ∈ store2, p ∈ store ∨
        (p.pattern_type = "TIME" ∧ 3 ≤ p.times_matched) := by
  intro cats
  induction cats with
  | nil =>
    intro n store n2 store2 h p hp
    cases h
    exact Or.inl hp
  | cons c rest ih =>
    intro n store n2 store2 h p hp
    rcases c with ⟨cname, count⟩
    unfold analyze_time_cats at h
    split at h
    · rename_i hcount
      split at h
      · exact Option.noConfusion h
      · split at h
        · exact ih _ _ _ _ h p hp
        · rcases ih _ _ _ _ h p hp with hold | hP
          · rcases List.mem_append.mp hold with h1 | h2
            · exact Or.inl h1
            · rcases List.mem_singleton.mp h2 with rfl
              exact Or.inr ⟨rfl, hcount⟩
          · exact Or.inr hP
    · exact ih _ _ _ _ h p hp

theorem analyze_time_step_rows {db : Db} {window : List Ticket} {now : Int}
    {day : String} {store : List TicketPattern} {n : Nat}
    {store2 : List TicketPattern}
    (h : analyze_time_step db window now day store = some (n, store2)) :
    ∀ p ∈ store2, p ∈ store ∨
      (p.pattern_type = "TIME" ∧ 3 ≤ p.times_matched) := by
  unfold analyze_time_step at h
  split at h
  · exact analyze_time_cats_rows _ _ _ _ _ h
  · cases h
    intro p hp
    exact Or.inl hp

theorem analyze_time_pass_rows {db : Db} {window : List Ticket} {now : Int} :
    ∀ (keys : List String) (n : Nat) (store : List TicketPattern)
      (n2 : Nat) (store2 : List TicketPattern),
      analyze_time_pass db window now keys n store = some (n2, store2) →
      ∀ p ∈ store2, p ∈ store ∨
        (p.pattern_type = "TIME" ∧ 3 ≤ p.times_matched) := by
  intro keys
  induction keys with
  | nil =>
    intro n store n2 store2 h p hp
    cases h
    exact Or.inl hp
  | cons day rest ih =>
    intro n store n2 store2 h p hp
    unfold analyze_time_pass at h
    split at h
    · exact Option.noConfusion h
    · rename_i c store1 heq
      rcases ih _ _ _ _ h p hp with hold | hP
      · exact analyze_time_step_rows heq p hold
      · exact Or.inr hP

theorem analyze_time_patterns_rows {db : Db} {window : List Ticket}
    {now : Int} {store : List TicketPattern} {n : Nat}
    {store2 : List TicketPattern}
    (h : analyze_time_patterns db window now store = some (n, store2)) :
    ∀ p ∈ store2, p ∈ store ∨
      (p.pattern_type = "TIME" ∧ 3 ≤ p.times_matched) :=
  analyze_time_pass_rows _ _ _ _ _ h

/-- The keyword-pattern confidence formula of `analyze_keyword_patterns`
(spelled with total division; the analyzer computes it through `pyDiv` with
divisors that are provably nonzero whenever the occurrence gate holds). -/
def kwConfidence (window : List Ticket) (kw : String) : ℚ :=
  min 95 (((keywordGroup window kw).length : ℚ) / (window.length : ℚ) * 100 +
    ((resolvedCount (keywordGroup window kw)) : ℚ) /
      (((keywordGroup window kw).length : ℚ)) * 30)

/-- Projection of a pattern row to the fields no re-discovery ever touches
(everything except `times_matched`, `confidence_score` and `last_seen`). -/
structure PatternFrozen where
  pattern_type : String
  matching_keywords : String
  category : Option Nat
  suggested_solutions : List Nat
  times_helpful : Nat
  discovered_at : Int
  is_active : Bool
  deriving DecidableEq, Repr

def frozen (p : TicketPattern) : PatternFrozen :=
  { pattern_type := p.pattern_type
    matching_keywords := p.matching_keywords
    category := p.category
    suggested_solutions := p.suggested_solutions
    times_helpful := p.times_helpful
    discovered_at := p.discovered_at
    is_active := p.is_active }

theorem kwKey_congr {kw : String} {p q : TicketPattern}
    (h : frozen p = frozen q) : kwKey kw p = kwKey kw q := by
  have h1 : p.pattern_type = q.pattern_type :=
    congrArg PatternFrozen.pattern_type h
  have h2 : p.matching_keywords = q.matching_keywords :=
    congrArg PatternFrozen.matching_keywords h
  unfold kwKey
  rw [h1, h2]

theorem timeKey_congr {mkw : String} {p q : TicketPattern}
    (h : frozen p = frozen q) : timeKey mkw p = timeKey mkw q := by
  have h1 : p.pattern_type = q.pattern_type :=
    congrArg PatternFrozen.pattern_type h
  have h2 : p.matching_keywords = q.matching_keywords :=
    congrArg PatternFrozen.matching_keywords h
  unfold timeKey
  rw [h1, h2]

theorem presence_of_frozen_eq {store store2 : List TicketPattern}
    (hmap : store2.map frozen = store.map frozen)
    {K : TicketPattern → Bool} (hK : ∀ p q, frozen p = frozen q → K p = K q)
    (h : ∃ q ∈ store, K q = true) : ∃ q ∈ store2, K q = true := by
  rcases h with ⟨q, hq, hKq⟩
  have hmem : frozen q ∈ store2.map frozen := by
    rw [hmap]
    exact List.mem_map_of_mem _ hq
  rcases List.mem_map.mp hmem with ⟨q2, hq2, hfe⟩
  exact ⟨q2, hq2, by rw [hK q2 q hfe]; exact hKq⟩

theorem presence_of_frozen_append {store store2 : List TicketPattern}
    {tail : List PatternFrozen}
    (hmap : store2.map frozen = store.map frozen ++ tail)
    {K : TicketPattern → Bool} (hK : ∀ p q, frozen p = frozen q → K p = K q)
    (h : ∃ q ∈ store, K q = true) : ∃ q ∈ store2, K q = true := by
  rcases h with ⟨q, hq, hKq⟩
  have hmem : frozen q ∈ store2.map frozen := by
    rw [hmap]
    exact List.mem_append_left _ (List.mem_map_of_mem _ hq)
  rcases List.mem_map.mp hmem with ⟨q2, hq2, hfe⟩
  exact ⟨q2, hq2, by rw [hK q2 q hfe]; exact hKq⟩

theorem map_frozen_updateFirst (k : TicketPattern → Bool)
    (f : TicketPattern → TicketPattern)
    (hf : ∀ p, frozen (f p) = frozen p) :
    ∀ l, (updateFirst k f l).map frozen = l.map frozen := by
  intro l
  induction l with
  | nil => rfl
  | cons p ps ih =>
    unfold updateFirst
    by_cases hk : k p
    · rw [if_pos hk, List.map_cons, List.map_cons, hf p]
    · rw [if_neg hk, List.map_cons, List.map_cons, ih]

/-- The in-place refresh used on re-discovery (new confidence, occurrence
count and last-seen) keeps the frozen projection of every row. -/
theorem map_frozen_update_row (k : TicketPattern → Bool) (cs : ℚ) (tm : Nat)
    (ls : Int) (l : List TicketPattern) :
    (updateFirst k (fun p =>
      { p with confidence_score := cs, times_matched := tm,
               last_seen := ls }) l).map frozen = l.map frozen := by
  refine map_frozen_updateFirst _ _ (fun p => ?_) l
  rfl

/-- One keyword step only updates rows in place (frozen fields intact) or
appends new rows. -/
theorem analyze_keyword_step_grows {db : Db} {window : List Ticket} {now : Int}
    {kw : String} {store : List TicketPattern} {c : Nat}
    {store2 : List TicketPattern}
    (h : analyze_keyword_step db window now kw store = some (c, store2)) :
    ∃ tail, store2.map frozen = store.map frozen ++ tail := by
  unfold analyze_keyword_step at h
  split at h
  · split at h
    · split at h
      · split at h
        · cases h
          refine ⟨[], ?_⟩
          rw [List.append_nil]
          exact map_frozen_update_row _ _ _ _ store
        · cases h
          exact ⟨_, List.map_append _ _ _⟩
      · cases h
        exact ⟨[], (List.append_nil _).symm⟩
    · exact Option.noConfusion h
  · cases h
    exact ⟨[], (List.append_nil _).symm⟩

theorem analyze_keyword_pass_grows {db : Db} {window : List Ticket}
    {now : Int} :
    ∀ (keys : List String) (n : Nat) (store : List TicketPattern)
      (n2 : Nat) (store2 : List TicketPattern),
      analyze_keyword_pass db window now keys n store = some (n2, store2) →
      ∃ tail, store2.map frozen = store.map frozen ++ tail := by
  intro keys
  induction keys with
  | nil =>
    intro n store n2 store2 h
    cases h
    exact ⟨[], (List.append_nil _).symm⟩
  | cons kw rest ih =>
    intro n store n2 store2 h
    unfold analyze_keyword_pass at h
    split at h
    · exact Option.noConfusion h
    · rename_i c store1 heq
      rcases analyze_keyword_step_grows heq with ⟨t1, h1⟩
      rcases ih _ _ _ _ h with ⟨t2, h2⟩
      exact ⟨t1 ++ t2, by rw [h2, h1, List.append_assoc]⟩

/-- After a keyword step on a group that passes both gates, the key is
present. -/
theorem analyze_keyword_step_presence {db : Db} {window : List Ticket}
    {now : Int} {kw : String} {store : List TicketPattern} {c : Nat}
    {store2 : List TicketPattern}
    (h : analyze_keyword_step db window now kw store = some (c, store2))
    (hsize : 3 ≤ (keywordGroup window kw).length)
    (hconf : 70 ≤ kwConfidence window kw) :
    ∃ q ∈ store2, kwKey kw q = true := by
  unfold analyze_keyword_step at h
  split at h
  · split at h
    · rename_i frac rfrac heq1 heq2
      split at h
      · split at h
        · rename_i hfound
          cases h
          have hex : ∃ q ∈ store, kwKey kw q = true := by
            rcases Option.isSome_iff_exists.mp hfound with ⟨q, hq⟩
            exact ⟨q, List.mem_of_find?_eq_some hq, List.find?_some hq⟩
          exact presence_of_frozen_eq (map_frozen_update_row _ _ _ _ store)
            (fun p q hpq => kwKey_congr hpq) hex
        · cases h
          refine ⟨_, List.mem_append_right _ (List.mem_singleton.mpr rfl), ?_⟩
          unfold kwKey
          simp
      · rename_i hgate
        exfalso
        apply hgate
        have hfrac : frac =
            ((keywordGroup window kw).length : ℚ) / (window.length : ℚ) := by
          unfold pyDiv at heq1
          split at heq1
          · exact Option.noConfusion heq1
          · exact (Option.some.inj heq1).symm
        have hrfrac : rfrac =
            ((resolvedCount (keywordGroup window kw)) : ℚ) /
              (((keywordGroup window kw).length : ℚ)) := by
          unfold pyDiv at heq2
          split at heq2
          · exact Option.noConfusion heq2
          · exact (Option.some.inj heq2).symm
        rw [hfrac, hrfrac]
        exact hconf
    · exact Option.noConfusion h
  · rename_i hsf
    exact absurd hsize hsf

theorem analyze_keyword_pass_presence {db : Db} {window : List Ticket}
    {now : Int} {kw : String}
    (hsize : 3 ≤ (keywordGroup window kw).length)
    (hconf : 70 ≤ kwConfidence window kw) :
    ∀ (keys : List String) (n : Nat) (store : List TicketPattern)
      (n2 : Nat) (store2 : List TicketPattern),
      analyze_keyword_pass db window now keys n store = some (n2, store2) →
      kw ∈ keys →
      ∃ q ∈ store2, kwKey kw q = true := by
  intro keys
  induction keys with
  | nil =>
    intro n store n2 store2 h hmem
    exact absurd hmem (List.not_mem_nil kw)
  | cons k0 rest ih =>
    intro n store n2 store2 h hmem
    unfold analyze_keyword_pass at h
    split at h
    · exact Option.noConfusion h
    · rename_i c store1 heq
      rcases List.mem_cons.mp hmem with rfl | hmem2
      · have hpres := analyze_keyword_step_presence heq hsize hconf
        rcases analyze_keyword_pass_grows _ _ _ _ _ h with ⟨tail, hmap⟩
        exact presence_of_frozen_append hmap (fun p q hpq => kwKey_congr hpq)
          hpres
      · exact ih _ _ _ _ h hmem2

/-- The time sub-analysis only ever appends rows (it never edits existing
ones, not even on re-discovery). -/
theorem analyze_time_cats_extends {now : Int} {day : String} {day_total : Nat} :
    ∀ (cats : List (String × Nat)) (n : Nat) (store : List TicketPattern)
      (n2 : Nat) (store2 : List TicketPattern),
      analyze_time_cats now day day_total cats n store = some (n2, store2) →
      ∃ tail, store2 = store ++ tail := by
  intro cats
  induction cats with
  | nil =>
    intro n store n2 store2 h
    cases h
    exact ⟨[], (List.append_nil _).symm⟩
  | cons c rest ih =>
    intro n store n2 store2 h
    rcases c with ⟨cname, count⟩
    unfold analyze_time_cats at h
    split at h
    · split at h
      · exact Option.noConfusion h
      · split at h
        · exact ih _ _ _ _ h
        · rcases ih _ _ _ _ h with ⟨tail, htail⟩
          exact ⟨_, htail.trans (List.append_assoc _ _ _)⟩
    · exact ih _ _ _ _ h

theorem analyze_time_step_extends {db : Db} {window : List Ticket} {now : Int}
    {day : String} {store : List TicketPattern} {n : Nat}
    {store2 : List TicketPattern}
    (h : analyze_time_step db window now day store = some (n, store2)) :
    ∃ tail, store2 = store ++ tail := by
  unfold analyze_time_step at h
  split at h
  · exact analyze_time_cats_extends _ _ _ _ _ h
  · cases h
    exact ⟨[], (List.append_nil _).symm⟩

theorem analyze_time_pass_extends {db : Db} {window : List Ticket} {now : Int} :
    ∀ (keys : List String) (n : Nat) (store : List TicketPattern)
      (n2 : Nat) (store2 : List TicketPattern),
      analyze_time_pass db window now keys n store = some (n2, store2) →
      ∃ tail, store2 = store ++ tail := by
  intro keys
  induction keys with
  | nil =>
    intro n store n2 store2 h
    cases h
    exact ⟨[], (List.append_nil _).symm⟩
  | cons day rest ih =>
    intro n store n2 store2 h
    unfold analyze_time_pass at h
    split at h
    · exact Option.noConfusion h
    · rename_i c store1 heq
      rcases analyze_time_step_extends heq with ⟨t1, h1⟩
      rcases ih _ _ _ _ h with ⟨t2, h2⟩
      refine ⟨t1 ++ t2, ?_⟩
      rw [h2, h1, List.append_assoc]

/-- After the inner time loop, every qualifying (category, count) pair of the
processed list has its key present in the store. -/
theorem analyze_time_cats_presence {now : Int} {day : String} {day_total : Nat} :
    ∀ (cats : List (String × Nat)) (n : Nat) (store : List TicketPattern)
      (n2 : Nat) (store2 : List TicketPattern),
      analyze_time_cats now day day_total cats n store = some (n2, store2) →
      ∀ cname count, (cname, count) ∈ cats → 3 ≤ count →
      ∃ q ∈ store2, timeKey (day ++ "_" ++ cname) q = true := by
  intro cats
  induction cats with
  | nil =>
    intro n store n2 store2 h cname count hmem hcount
    exact absurd hmem (List.not_mem_nil _)
  | cons c rest ih =>
    intro n store n2 store2 h cname count hmem hcount
    rcases c with ⟨c0, k0⟩
    unfold analyze_time_cats at h
    rcases List.mem_cons.mp hmem with hhd | htl
    · injection hhd with hc0 hk0
      subst hc0
      subst hk0
      split at h
      · split at h
        · exact Option.noConfusion h
        · split at h
          · rename_i hfound
            rcases Option.isSome_iff_exists.mp hfound with ⟨q, hq⟩
            rcases analyze_time_cats_extends _ _ _ _ _ h with ⟨tail, htail⟩
            refine ⟨q, ?_, List.find?_some hq⟩
            rw [htail]
            exact List.mem_append_left _ (List.mem_of_find?_eq_some hq)
          · rcases analyze_time_cats_extends _ _ _ _ _ h with ⟨tail, htail⟩
            rw [htail]
            refine ⟨_, List.mem_append_left _
              (List.mem_append_right _ (List.mem_singleton.mpr rfl)), ?_⟩
            unfold timeKey
            simp
      · rename_i hgate
        exact absurd hcount hgate
    · split at h
      · split at h
        · exact Option.noConfusion h
        · split at h
          · exact ih _ _ _ _ h cname count htl hcount
          · exact ih _ _ _ _ h cname count htl hcount
      · exact ih _ _ _ _ h cname count htl hcount

/-- A time step on an over-represented day records every category that
appears at least 3 times among its top-3. -/
theorem analyze_time_step_presence {db : Db} {window : List Ticket} {now : Int}
    {day : String} {store : List TicketPattern} {c : Nat}
    {store2 : List TicketPattern}
    (h : analyze_time_step db window now day store = some (c, store2))
    (hgate : ((window.length : ℚ) / 7) * (3/2) <
      ((dayGroup window day).length : ℚ))
    {cname : String} {count : Nat}
    (hmem : (cname, count) ∈
      most_common 3 (ticketCategoryNames db (dayGroup window day)))
    (hcount : 3 ≤ count) :
    ∃ q ∈ store2, timeKey (day ++ "_" ++ cname) q = true := by
  unfold analyze_time_step at h
  split at h
  · exact analyze_time_cats_presence _ _ _ _ _ h cname count hmem hcount
  · rename_i hg
    exact absurd hgate hg

theorem analyze_time_pass_presence {db : Db} {window : List Ticket} {now : Int}
    {day : String} {cname : String} {count : Nat}
    (hgate : ((window.length : ℚ) / 7) * (3/2) <
      ((dayGroup window day).length : ℚ))
    (hmem : (cname, count) ∈
      most_common 3 (ticketCategoryNames db (dayGroup window day)))
    (hcount : 3 ≤ count) :
    ∀ (keys : List String) (n : Nat) (store : List TicketPattern)
      (n2 : Nat) (store2 : List TicketPattern),
      analyze_time_pass db window now keys n store = some (n2, store2) →
      day ∈ keys →
      ∃ q ∈ store2, timeKey (day ++ "_" ++ cname) q = true := by
  intro keys
  induction keys with
  | nil =>
    intro n store n2 store2 h hdmem
    exact absurd hdmem (List.not_mem_nil day)
  | cons d0 rest ih =>
    intro n store n2 store2 h hdmem
    unfold analyze_time_pass at h
    split at h
    · exact Option.noConfusion h
    · rename_i c store1 heq
      rcases List.mem_cons.mp hdmem with rfl | hdmem2
      · rcases analyze_time_step_presence heq hgate hmem hcount with
          ⟨q, hq, hKq⟩
        rcases analyze_time_pass_extends _ _ _ _ _ h with ⟨tail, htail⟩
        refine ⟨q, ?_, hKq⟩
        rw [htail]
        exact List.mem_append_left _ hq
      · exact ih _ _ _ _ h hdmem2

/-- A keyword step whose key (when the group qualifies) is already present
creates nothing: it only refreshes the matched row in place. -/
theorem analyze_keyword_step_stable {db : Db} {window : List Ticket}
    {now : Int} {kw : String} {store : List TicketPattern} {c : Nat}
    {store2 : List TicketPattern}
    (h : analyze_keyword_step db window now kw store = some (c, store2))
    (hpres : 3 ≤ (keywordGroup window kw).length →
      70 ≤ kwConfidence window kw → ∃ q ∈ store, kwKey kw q = true) :
    c = 0 ∧ store2.map frozen = store.map frozen := by
  unfold analyze_keyword_step at h
  split at h
  · rename_i hsize
    split at h
    · rename_i frac rfrac heq1 heq2
      split at h
      · rename_i hconf
        split at h
        · cases h
          exact ⟨rfl, map_frozen_update_row _ _ _ _ store⟩
        · rename_i hmiss
          exfalso
          apply hmiss
          have hfrac : frac =
              ((keywordGroup window kw).length : ℚ) / (window.length : ℚ) := by
            unfold pyDiv at heq1
            split at heq1
            · exact Option.noConfusion heq1
            · exact (Option.some.inj heq1).symm
          have hrfrac : rfrac =
              ((resolvedCount (keywordGroup window kw)) : ℚ) /
                (((keywordGroup window kw).length : ℚ)) := by
            unfold pyDiv at heq2
            split at heq2
            · exact Option.noConfusion heq2
            · exact (Option.some.inj heq2).symm
          rw [hfrac, hrfrac] at hconf
          rcases hpres hsize hconf with ⟨q, hqmem, hqkey⟩
          exact List.find?_isSome.mpr ⟨q, hqmem, hqkey⟩
      · cases h
        exact ⟨rfl, rfl⟩
    · exact Option.noConfusion h
  · cases h
    exact ⟨rfl, rfl⟩

/-- A keyword pass over keys that are all (when qualifying) already present
in the store creates nothing and keeps every frozen projection. -/
theorem analyze_keyword_pass_stable {db : Db} {window : List Ticket}
    {now : Int} :
    ∀ (keys : List String) (n : Nat) (store : List TicketPattern)
      (n2 : Nat) (store2 : List TicketPattern),
      analyze_keyword_pass db window now keys n store = some (n2, store2) →
      (∀ kw ∈ keys, 3 ≤ (keywordGroup window kw).length →
        70 ≤ kwConfidence window kw → ∃ q ∈ store, kwKey kw q = true) →
      n2 = n ∧ store2.map frozen = store.map frozen := by
  intro keys
  induction keys with
  | nil =>
    intro n store n2 store2 h hpres
    cases h
    exact ⟨rfl, rfl⟩
  | cons kw rest ih =>
    intro n store n2 store2 h hpres
    unfold analyze_keyword_pass at h
    split at h
    · exact Option.noConfusion h
    · rename_i c store1 heq
      obtain ⟨hc, hmap⟩ := analyze_keyword_step_stable heq
        (hpres kw (List.mem_cons_self kw rest))
      subst hc
      obtain ⟨hn, hmap2⟩ := ih _ _ _ _ h (fun kw2 hkw2 hs hcf =>
        presence_of_frozen_eq hmap (fun p q hpq => kwKey_congr hpq)
          (hpres kw2 (List.mem_cons_of_mem kw hkw2) hs hcf))
      exact ⟨by omega, hmap2.trans hmap⟩

/-- The inner time loop over pairs whose keys are already present stores
nothing and leaves the store untouched. -/
theorem analyze_time_cats_stable {now : Int} {day : String} {day_total : Nat} :
    ∀ (cats : List (String × Nat)) (n : Nat) (store : List TicketPattern)
      (n2 : Nat) (store2 : List TicketPattern),
      analyze_time_cats now day day_total cats n store = some (n2, store2) →
      (∀ cname count, (cname, count) ∈ cats → 3 ≤ count →
        ∃ q ∈ store, timeKey (day ++ "_" ++ cname) q = true) →
      n2 = n ∧ store2 = store := by
  intro cats
  induction cats with
  | nil =>
    intro n store n2 store2 h hpres
    cases h
    exact ⟨rfl, rfl⟩
  | cons c rest ih =>
    intro n store n2 store2 h hpres
    rcases c with ⟨c0, k0⟩
    unfold analyze_time_cats at h
    split at h
    · rename_i hocc
      split at h
      · exact Option.noConfusion h
      · split at h
        · exact ih _ _ _ _ h (fun cname count hm hc =>
            hpres cname count (List.mem_cons_of_mem _ hm) hc)
        · rename_i hmiss
          exfalso
          apply hmiss
          exact List.find?_isSome.mpr
            (hpres c0 k0 (List.mem_cons_self _ _) hocc)
    · exact ih _ _ _ _ h (fun cname count hm hc =>
        hpres cname count (List.mem_cons_of_mem _ hm) hc)

theorem analyze_time_step_stable {db : Db} {window : List Ticket} {now : Int}
    {day : String} {store : List TicketPattern} {c : Nat}
    {store2 : List TicketPattern}
    (h : analyze_time_step db window now day store = some (c, store2))
    (hpres : ((window.length : ℚ) / 7) * (3/2) <
        ((dayGroup window day).length : ℚ) →
      ∀ cname count, (cname, count) ∈
          most_common 3 (ticketCategoryNames db (dayGroup window day)) →
        3 ≤ count →
        ∃ q ∈ store, timeKey (day ++ "_" ++ cname) q = true) :
    c = 0 ∧ store2 = store := by
  unfold analyze_time_step at h
  split at h
  · rename_i hg
    exact analyze_time_cats_stable _ _ _ _ _ h (hpres hg)
  · cases h
    exact ⟨rfl, rfl⟩

theorem analyze_time_pass_stable {db : Db} {window : List Ticket} {now : Int} :
    ∀ (keys : List String) (n : Nat) (store : List TicketPattern)
      (n2 : Nat) (store2 : List TicketPattern),
      analyze_time_pass db window now keys n store = some (n2, store2) →
      (∀ day ∈ keys, ((window.length : ℚ) / 7) * (3/2) <
          ((dayGroup window day).length : ℚ) →
        ∀ cname count, (cname, count) ∈
            most_common 3 (ticketCategoryNames db (dayGroup window day)) →
          3 ≤ count →
          ∃ q ∈ store, timeKey (day ++ "_" ++ cname) q = true) →
      n2 = n ∧ store2 = store := by
  intro keys
  induction keys with
  | nil =>
    intro n store n2 store2 h hpres
    cases h
    exact ⟨rfl, rfl⟩
  | cons day rest ih =>
    intro n store n2 store2 h hpres
    unfold analyze_time_pass at h
    split at h
    · exact Option.noConfusion h
    · rename_i c store1 heq
      obtain ⟨hc, hst⟩ := analyze_time_step_stable heq
        (hpres day (List.mem_cons_self _ _))
      subst hc
      subst hst
      obtain ⟨hn, hst2⟩ := ih _ _ _ _ h
        (fun d hd => hpres d (List.mem_cons_of_mem _ hd))
      exact ⟨by omega, hst2⟩

/-- Membership in `find_common_solutions` is exactly "at least 2 successful
application rows over the group". -/
theorem mem_find_common_solutions {db : Db} {tickets : List Ticket}
    {sid : Nat} :
    sid ∈ find_common_solutions db tickets ↔
      2 ≤ ((tickets.flatMap (fun t => db.ticket_solutions.filter (fun a =>
          a.ticket == t.id && a.was_successful == some true))).filter
        (fun a => a.solution == sid)).length := by
  unfold find_common_solutions
  constructor
  · intro h
    exact of_decide_eq_true (List.mem_filter.mp h).2
  · intro h
    refine List.mem_filter.mpr ⟨?_, decide_eq_true h⟩
    rw [mem_dedupFirst]
    have hne : (tickets.flatMap (fun t => db.ticket_solutions.filter
        (fun a => a.ticket == t.id && a.was_successful == some true))).filter
          (fun a => a.solution == sid) ≠ [] := by
      intro hnil
      rw [hnil] at h
      exact absurd h (by decide)
    rcases List.exists_mem_of_ne_nil _ hne with ⟨a, ha⟩
    rcases List.mem_filter.mp ha with ⟨hamem, hasol⟩
    rw [List.mem_map]
    exact ⟨a, hamem, eq_of_beq hasol⟩

/-- In a pairwise-distinct application list, a predicate that pins down the
ticket and the solution matches at most one row: the filter's length is `1`
when some row matches and `0` otherwise. -/
theorem filter_length_eq_any (tid sid : Nat) {l : List TicketSolution}
    {p : TicketSolution → Bool}
    (hu : List.Pairwise (fun a b =>
      ¬(a.ticket = b.ticket ∧ a.solution = b.solution)) l)
    (hp : ∀ a, p a = true → a.ticket = tid ∧ a.solution = sid) :
    (l.filter p).length = if l.any p then 1 else 0 := by
  induction l with
  | nil => rfl
  | cons a rest ih =>
    rcases List.pairwise_cons.mp hu with ⟨hha, hrest⟩
    by_cases hpa : p a = true
    · rw [List.filter_cons_of_pos hpa]
      have hnone : rest.filter p = [] := by
        rw [List.filter_eq_nil_iff]
        intro b hb hpb
        exact hha b hb ⟨(hp a hpa).1.trans (hp b hpb).1.symm,
          (hp a hpa).2.trans (hp b hpb).2.symm⟩
      rw [hnone]
      simp [List.any_cons, hpa]
    · rw [List.filter_cons_of_neg hpa]
      rw [ih hrest]
      simp [List.any_cons, hpa]

/-- Under the uniqueness constraint, counting successful application rows of
`sid` over a ticket group is counting the group's tickets on which `sid` was
applied successfully. -/
theorem apps_filter_length (db : Db) (sid : Nat) (hu : applicationsUnique db) :
    ∀ tickets : List Ticket,
    ((tickets.flatMap (fun t => db.ticket_solutions.filter (fun a =>
        a.ticket == t.id && a.was_successful == some true))).filter
      (fun a => a.solution == sid)).length
      = (tickets.filter (appliedSuccessfully db sid)).length := by
  intro tickets
  induction tickets with
  | nil => rfl
  | cons t rest ih =>
    rw [List.flatMap_cons, List.filter_append, List.length_append, ih]
    have hstep : (((db.ticket_solutions.filter (fun a =>
        a.ticket == t.id && a.was_successful == some true)).filter
          (fun a => a.solution == sid)).length)
        = if appliedSuccessfully db sid t then 1 else 0 := by
      rw [List.filter_filter]
      refine filter_length_eq_any t.id sid hu ?_
      intro a ha
      rw [Bool.and_eq_true, Bool.and_eq_true] at ha
      exact ⟨eq_of_beq ha.2.1, eq_of_beq ha.1⟩
    rw [hstep]
    by_cases hat : appliedSuccessfully db sid t = true
    · rw [if_pos hat, List.filter_cons_of_pos hat, List.length_cons]
      omega
    · rw [if_neg hat, List.filter_cons_of_neg hat]
      omega

theorem find_common_solutions_iff (db : Db) (tickets : List Ticket)
    (hu : applicationsUnique db) (sid : Nat) :
    sid ∈ find_common_solutions db tickets ↔
      2 ≤ (tickets.filter (appliedSuccessfully db sid)).length := by
  rw [mem_find_common_solutions, apps_filter_length db sid hu tickets]

/-- A keyword step over a fresh, doubly-qualifying group appends exactly the
row described by the spec's formulas. -/
theorem analyze_keyword_step_creates {db : Db} {window : List Ticket}
    {now : Int} {kw : String} {store : List TicketPattern} {c : Nat}
    {store2 : List TicketPattern}
    (h : analyze_keyword_step db window now kw store = some (c, store2))
    (hsize : 3 ≤ (keywordGroup window kw).length)
    (hconf : 70 ≤ kwConfidence window kw)
    (hfresh : ∀ q ∈ store, kwKey kw q = false) :
    c = 1 ∧ store2 = store ++ [{
      pattern_type := "KEYWORD"
      matching_keywords := kw
      category := none
      suggested_solutions := find_common_solutions db (keywordGroup window kw)
      confidence_score := kwConfidence window kw
      times_matched := (keywordGroup window kw).length
      times_helpful := 0
      discovered_at := now
      last_seen := now
      is_active := true }] := by
  unfold analyze_keyword_step at h
  split at h
  · split at h
    · rename_i frac rfrac heq1 heq2
      have hfrac : frac =
          ((keywordGroup window kw).length : ℚ) / (window.length : ℚ) := by
        unfold pyDiv at heq1
        split at heq1
        · exact Option.noConfusion heq1
        · exact (Option.some.inj heq1).symm
      have hrfrac : rfrac =
          ((resolvedCount (keywordGroup window kw)) : ℚ) /
            (((keywordGroup window kw).length : ℚ)) := by
        unfold pyDiv at heq2
        split at heq2
        · exact Option.noConfusion heq2
        · exact (Option.some.inj heq2).symm
      split at h
      · split at h
        · rename_i hfound
          exfalso
          rcases Option.isSome_iff_exists.mp hfound with ⟨q, hq⟩
          have hKq := List.find?_some hq
          rw [hfresh q (List.mem_of_find?_eq_some hq)] at hKq
          exact Bool.noConfusion hKq
        · cases h
          refine ⟨rfl, ?_⟩
          rw [hfrac, hrfrac]
          rfl
      · rename_i hgate
        exfalso
        apply hgate
        rw [hfrac, hrfrac]
        exact hconf
    · exact Option.noConfusion h
  · rename_i hs
    exact absurd hsize hs

theorem mem_updateFirst_of_key_false {α : Type} {k : α → Bool}
    (f : α → α) {p : α} (hp : k p = false) :
    ∀ l, p ∈ l → p ∈ updateFirst k f l := by
  intro l
  induction l with
  | nil =>
    intro h
    exact absurd h (List.not_mem_nil p)
  | cons a as ih =>
    intro hmem
    unfold updateFirst
    by_cases hka : k a = true
    · rw [if_pos hka]
      rcases List.mem_cons.mp hmem with rfl | h2
      · rw [hka] at hp
        exact Bool.noConfusion hp
      · exact List.mem_cons_of_mem _ h2
    · rw [if_neg hka]
      rcases List.mem_cons.mp hmem with rfl | h2
      · exact List.mem_cons_self _ _
      · exact List.mem_cons_of_mem _ (ih h2)

/-- A row whose key a keyword step does not match survives the step
untouched. -/
theorem analyze_keyword_step_preserves {db : Db} {window : List Ticket}
    {now : Int} {kw2 : String} {store : List TicketPattern} {c : Nat}
    {store2 : List TicketPattern}
    (h : analyze_keyword_step db window now kw2 store = some (c, store2))
    {p : TicketPattern} (hp : p ∈ store) (hkey : kwKey kw2 p = false) :
    p ∈ store2 := by
  unfold analyze_keyword_step at h
  split at h
  · split at h
    · split at h
      · split at h
        · cases h
          exact mem_updateFirst_of_key_false _ hkey _ hp
        · cases h
          exact List.mem_append_left _ hp
      · cases h
        exact hp
    · exact Option.noConfusion h
  · cases h
    exact hp

theorem analyze_keyword_pass_preserves {db : Db} {window : List Ticket}
    {now : Int} :
    ∀ (keys : List String) (n : Nat) (store : List TicketPattern)
      (n2 : Nat) (store2 : List TicketPattern),
      analyze_keyword_pass db window now keys n store = some (n2, store2) →
      ∀ p ∈ store, (∀ k2 ∈ keys, kwKey k2 p = false) → p ∈ store2 := by
  intro keys
  induction keys with
  | nil =>
    intro n store n2 store2 h p hp hks
    cases h
    exact hp
  | cons k0 rest ih =>
    intro n store n2 store2 h p hp hks
    unfold analyze_keyword_pass at h
    split at h
    · exact Option.noConfusion h
    · rename_i c store1 heq
      exact ih _ _ _ _ h p
        (analyze_keyword_step_preserves heq hp
          (hks k0 (List.mem_cons_self _ _)))
        (fun k2 hk2 => hks k2 (List.mem_cons_of_mem _ hk2))

/-- A keyword step on a different key cannot introduce a row carrying key
`kw`. -/
theorem analyze_keyword_step_fresh {db : Db} {window : List Ticket}
    {now : Int} {kw kw2 : String} {store : List TicketPattern} {c : Nat}
    {store2 : List TicketPattern}
    (h : analyze_keyword_step db window now kw2 store = some (c, store2))
    (hne : kw ≠ kw2)
    (hfr : ∀ q ∈ store, kwKey kw q = false) :
    ∀ q ∈ store2, kwKey kw q = false := by
  unfold analyze_keyword_step at h
  split at h
  · split at h
    · split at h
      · split at h
        · cases h
          intro q hq
          rcases mem_updateFirst _ _ store q hq with hold | ⟨y, hy, -, rfl⟩
          · exact hfr q hold
          · exact hfr y hy
        · cases h
          intro q hq
          rcases List.mem_append.mp hq with hold | hnew
          · exact hfr q hold
          · rcases List.mem_singleton.mp hnew with rfl
            unfold kwKey
            simp [beq_eq_false_iff_ne, Ne.symm hne]
      · cases h
        exact hfr
    · exact Option.noConfusion h
  · cases h
    exact hfr

/-- A fresh, doubly-qualifying keyword of the key list ends the pass with its
freshly created row — the exact row of the spec's formulas — in the store. -/
theorem analyze_keyword_pass_creates {db : Db} {window : List Ticket}
    {now : Int} {kw : String}
    (hsize : 3 ≤ (keywordGroup window kw).length)
    (hconf : 70 ≤ kwConfidence window kw) :
    ∀ (keys : List String) (n : Nat) (store : List TicketPattern)
      (n2 : Nat) (store2 : List TicketPattern),
      analyze_keyword_pass db window now keys n store = some (n2, store2) →
      keys.Nodup → kw ∈ keys → (∀ q ∈ store, kwKey kw q = false) →
      ({ pattern_type := "KEYWORD"
         matching_keywords := kw
         category := none
         suggested_solutions := find_common_solutions db
           (keywordGroup window kw)
         confidence_score := kwConfidence window kw
         times_matched := (keywordGroup window kw).length
         times_helpful := 0
         discovered_at := now
         last_seen := now
         is_active := true } : TicketPattern) ∈ store2 := by
  intro keys
  induction keys with
  | nil =>
    intro n store n2 store2 h hnd hmem hfr
    exact absurd hmem (List.not_mem_nil _)
  | cons k0 rest ih =>
    intro n store n2 store2 h hnd hmem hfr
    unfold analyze_keyword_pass at h
    split at h
    · exact Option.noConfusion h
    · rename_i c store1 heq
      rcases List.mem_cons.mp hmem with rfl | hmem2
      · obtain ⟨hc, hstore1⟩ := analyze_keyword_step_creates heq hsize
          hconf hfr
        subst hstore1
        have hku : kw ∉ rest := (List.nodup_cons.mp hnd).1
        refine analyze_keyword_pass_preserves _ _ _ _ _ h _
          (List.mem_append_right _ (List.mem_singleton.mpr rfl)) ?_
        intro k2 hk2
        have hne : kw ≠ k2 := fun he => hku (he ▸ hk2)
        unfold kwKey
        simp [beq_eq_false_iff_ne, hne]
      · have hk0 : kw ≠ k0 := fun he =>
          (List.nodup_cons.mp hnd).1 (he ▸ hmem2)
        exact ih _ _ _ _ h (List.nodup_cons.mp hnd).2 hmem2
          (analyze_keyword_step_fresh heq hk0 hfr)

end PatternAnalyzer

open PatternAnalyzer in
/-- C2 (amended): a run of the analyzer adds (or refreshes) only keyword and
time pattern rows; keyword rows always clear both the occurrence (≥3) and
confidence (≥70) gates, time rows clear only the occurrence gate (their
confidence is not gated), and the category and user sub-analyses never
persist any row at all. -/
theorem C2_pattern_gates_amended (db : Db) (now days : Int)
    (r : AnalyzeResults) (db2 : Db)
    (h : analyze_recent_tickets db now days = some (r, db2)) :
    ∀ p ∈ db2.patterns, p ∈ db.patterns ∨
      ((p.pattern_type = "KEYWORD" ∨ p.pattern_type = "TIME") ∧
        3 ≤ p.times_matched ∧
        (p.pattern_type = "KEYWORD" → 70 ≤ p.confidence_score)) := by
  unfold analyze_recent_tickets at h
  split at h
  · exact Option.noConfusion h
  · rename_i n1 s1 heq1
    split at h
    · exact Option.noConfusion h
    · rename_i n2 s2 heq2
      have hcat :=
        analyze_category_patterns_eq db (recentWindow db now days) now s1
      cases hcat.symm.trans heq2
      split at h
      · exact Option.noConfusion h
      · rename_i n3 s3 heq3
        split at h
        · exact Option.noConfusion h
        · rename_i n4 s4 heq4
          have huser :=
            analyze_user_patterns_eq db (recentWindow db now days) now s3
          cases huser.symm.trans heq4
          cases h
          intro p hp
          rcases analyze_time_patterns_rows heq3 p hp with h1 | hT
          · rcases analyze_keyword_patterns_rows heq1 p h1 with h0 | hK
            · exact Or.inl h0
            · exact Or.inr ⟨Or.inl hK.1, hK.2.1, fun _ => hK.2.2⟩
          · refine Or.inr ⟨Or.inr hT.1, hT.2, fun hk => ?_⟩
            rw [hT.1] at hk
            exact absurd hk (by decide)

open PatternAnalyzer in
/-- C10: over an empty trailing window, `analyze_recent_tickets` returns
`{patterns_found := 0, tickets_analyzed := 0}` and the unchanged store,
without any division raising (`none` is never produced). -/
theorem C10_empty_window (db : Db) (now days : Int)
    (h : recentWindow db now days = []) :
    analyze_recent_tickets db now days =
      some ({ patterns_found := 0, tickets_analyzed := 0 }, db) := by
  unfold analyze_recent_tickets
  rw [h]
  rfl

/-- A store whose only ticket is older than the analysis window. -/
def staleTicket : Ticket :=
  { id := 9
    title := "ancient issue"
    description := "long gone"
    category := none
    status := "CLOSED"
    created_by := 4
    created_at := 0
    day_of_week := "Friday" }

def staleDb : Db :=
  { categories := []
    tickets := [staleTicket]
    solutions := []
    ticket_solutions := []
    patterns := [] }

theorem C10_empty_window_witness :
    PatternAnalyzer.analyze_recent_tickets staleDb 100 30 =
      some ({ patterns_found := 0, tickets_analyzed := 0 }, staleDb) :=
  C10_empty_window staleDb 100 30 (by decide)

/-! A concrete analyzer run: five tickets on one Monday, three of them
resolved "printer" tickets in category 1 ("aa"), two open ones in category 2
("bb"), one solution successfully applied to two of the printer tickets. -/

def exT1 : Ticket :=
  { id := 1, title := "printer", description := "", category := some 1,
    status := "RESOLVED", created_by := 7, created_at := 100,
    day_of_week := "Monday" }

def exT2 : Ticket := { exT1 with id := 2 }

def exT3 : Ticket := { exT1 with id := 3 }

def exT4 : Ticket :=
  { id := 4, title := "", description := "", category := some 2,
    status := "OPEN", created_by := 7, created_at := 100,
    day_of_week := "Monday" }

def exT5 : Ticket := { exT4 with id := 5 }

def exSol : Solution :=
  { id := 20, title := "reset printer", description := "", keywords := "",
    category := some 1, times_suggested := 4, times_successful := 2,
    is_active := true }

def exampleDb : Db :=
  { categories := [{ id := 1, name := "aa" }, { id := 2, name := "bb" }]
    tickets := [exT1, exT2, exT3, exT4, exT5]
    solutions := [exSol]
    ticket_solutions :=
      [{ ticket := 1, solution := 20, was_successful := some true },
       { ticket := 2, solution := 20, was_successful := some true }]
    patterns := [] }

/-- The keyword pattern the run creates: group "printer" of size 3 out of 5
tickets, all resolved, so confidence `min 95 (3/5*100 + 3/3*30) = 90`. -/
def exRow1 : TicketPattern :=
  { pattern_type := "KEYWORD"
    matching_keywords := "printer"
    category := none
    suggested_solutions := [20]
    confidence_score := 90
    times_matched := 3
    times_helpful := 0
    discovered_at := 100
    last_seen := 100
    is_active := true }

/-- The time pattern the run creates: Monday holds all 5 tickets (above the
1.5x average), category "aa" occurs 3 times, confidence
`min 95 (3/5*100) = 60` — below the 70 gate, persisted anyway. -/
def exRow2 : TicketPattern :=
  { pattern_type := "TIME"
    matching_keywords := "Monday_aa"
    category := none
    suggested_solutions := []
    confidence_score := 60
    times_matched := 3
    times_helpful := 0
    discovered_at := 100
    last_seen := 100
    is_active := true }

def exampleDb2 : Db := { exampleDb with patterns := [exRow1, exRow2] }

theorem exampleDb_run1 :
    PatternAnalyzer.analyze_recent_tickets exampleDb 100 30 =
      some ({ patterns_found := 2, tickets_analyzed := 5 }, exampleDb2) := by
  with_unfolding_all rfl

/-- The second run (20 time units later, same window) refreshes only the
keyword row's `last_seen`. -/
def exRow1b : TicketPattern := { exRow1 with last_seen := 120 }

def exampleDb3 : Db := { exampleDb with patterns := [exRow1b, exRow2] }

theorem exampleDb_run2 :
    PatternAnalyzer.analyze_recent_tickets exampleDb2 120 30 =
      some ({ patterns_found := 0, tickets_analyzed := 5 }, exampleDb3) := by
  with_unfolding_all rfl

open PatternAnalyzer in
/-- C5: running the analyzer a second time over the same unchanged ticket
window creates no pattern (`patterns_found = 0`) and leaves the pattern store
with the same rows in the same order up to the refreshed fields: the frozen
projection (type, key, category, attached solutions, helpful count,
discovery time, active flag) of every row is unchanged, so no row is
duplicated and re-discovery never re-attaches or changes a pattern's
solutions — it can only refresh `times_matched`, `confidence_score` and
`last_seen`. -/
theorem C5_analyze_idempotent (db : Db) (now1 days now2 : Int)
    (r1 r2 : AnalyzeResults) (db1 db2 : Db)
    (h1 : analyze_recent_tickets db now1 days = some (r1, db1))
    (h2 : analyze_recent_tickets db1 now2 days = some (r2, db2))
    (hwin : recentWindow db1 now2 days = recentWindow db now1 days) :
    db2.patterns.map frozen = db1.patterns.map frozen ∧
      r2.patterns_found = 0 := by
  unfold analyze_recent_tickets at h1
  split at h1
  · exact Option.noConfusion h1
  · rename_i n1 s1 heq1
    split at h1
    · exact Option.noConfusion h1
    · rename_i n2 s2 heq2
      cases (analyze_category_patterns_eq db (recentWindow db now1 days)
        now1 s1).symm.trans heq2
      split at h1
      · exact Option.noConfusion h1
      · rename_i n3 s3 heq3
        split at h1
        · exact Option.noConfusion h1
        · rename_i n4 s4 heq4
          cases (analyze_user_patterns_eq db (recentWindow db now1 days)
            now1 s3).symm.trans heq4
          cases h1
          unfold analyze_recent_tickets at h2
          rw [hwin] at h2
          split at h2
          · exact Option.noConfusion h2
          · rename_i m1 t1 heqk2
            split at h2
            · exact Option.noConfusion h2
            · rename_i m2 t2 heqc2
              cases (analyze_category_patterns_eq _
                (recentWindow db now1 days) now2 t1).symm.trans heqc2
              split at h2
              · exact Option.noConfusion h2
              · rename_i m3 t3 heqt2
                split at h2
                · exact Option.noConfusion h2
                · rename_i m4 t4 hequ2
                  cases (analyze_user_patterns_eq _
                    (recentWindow db now1 days) now2 t3).symm.trans hequ2
                  cases h2
                  unfold analyze_keyword_patterns at heq1 heqk2
                  unfold analyze_time_patterns at heq3 heqt2
                  have hkwpres : ∀ kw ∈ keywordKeys (recentWindow db now1 days),
                      3 ≤ (keywordGroup (recentWindow db now1 days) kw).length →
                      70 ≤ kwConfidence (recentWindow db now1 days) kw →
                      ∃ q ∈ s3, kwKey kw q = true := by
                    intro kw hkw hs hcf
                    have hs1 : ∃ q ∈ s1, kwKey kw q = true :=
                      analyze_keyword_pass_presence hs hcf _ _ _ _ _ heq1 hkw
                    rcases analyze_time_pass_extends _ _ _ _ _ heq3 with
                      ⟨tail, htail⟩
                    rcases hs1 with ⟨q, hq, hKq⟩
                    exact ⟨q, by
                      rw [htail]
                      exact List.mem_append_left _ hq, hKq⟩
                  obtain ⟨hm1, hmapt1⟩ :=
                    analyze_keyword_pass_stable _ _ _ _ _ heqk2 hkwpres
                  have htimepres : ∀ day ∈ dayKeys (recentWindow db now1 days),
                      ((recentWindow db now1 days).length : ℚ) / 7 * (3/2) <
                        ((dayGroup (recentWindow db now1 days) day).length : ℚ) →
                      ∀ cname count, (cname, count) ∈ most_common 3
                          (ticketCategoryNames db
                            (dayGroup (recentWindow db now1 days) day)) →
                        3 ≤ count →
                        ∃ q ∈ t1, timeKey (day ++ "_" ++ cname) q = true := by
                    intro day hday hg cname count hmc hcnt
                    exact presence_of_frozen_eq hmapt1
                      (fun p q hpq => timeKey_congr hpq)
                      (analyze_time_pass_presence hg hmc hcnt _ _ _ _ _
                        heq3 hday)
                  obtain ⟨hm3, ht3⟩ :=
                    analyze_time_pass_stable _ _ _ _ _ heqt2 htimepres
                  subst hm1
                  subst hm3
                  subst ht3
                  exact ⟨hmapt1, rfl⟩

theorem C5_analyze_idempotent_witness :
    exampleDb3.patterns.map PatternAnalyzer.frozen =
        exampleDb2.patterns.map PatternAnalyzer.frozen ∧
      ({ patterns_found := 0, tickets_analyzed := 5 } :
        PatternAnalyzer.AnalyzeResults).patterns_found = 0 :=
  C5_analyze_idempotent exampleDb 100 30 120 _ _ _ _
    exampleDb_run1 exampleDb_run2 (by with_unfolding_all decide)

/-- The keyword sub-analysis alone, over the example window and an empty
store: it creates exactly the "printer" row. -/
theorem exampleDb_kwrun :
    PatternAnalyzer.analyze_keyword_patterns exampleDb
      (PatternAnalyzer.recentWindow exampleDb 100 30) 100 [] =
      some (1, [exRow1]) := by
  with_unfolding_all rfl

open PatternAnalyzer in
/-- C6: when the keyword sub-analysis creates a pattern for a keyword (its
key is fresh, its group has at least 3 tickets, and the formula clears the
70 gate), the created row stores the confidence
min(95, 100·group_size/total_tickets + 30·resolved_fraction)
(`kwConfidence`), the group size as its occurrence count, and exactly the
solutions with at least 2 successful application rows over the group;
under the database's (ticket, solution) uniqueness constraint these are
exactly the solutions marked successful on at least 2 tickets of the
group. -/
theorem C6_keyword_confidence_solutions (db : Db) (window : List Ticket)
    (now : Int) (kw : String) (store : List TicketPattern)
    (n : Nat) (store2 : List TicketPattern)
    (h : analyze_keyword_patterns db window now store = some (n, store2))
    (hkw : kw ∈ keywordKeys window)
    (hsize : 3 ≤ (keywordGroup window kw).length)
    (hconf : 70 ≤ kwConfidence window kw)
    (hfresh : ∀ q ∈ store, kwKey kw q = false) :
    ∃ p ∈ store2, p.pattern_type = "KEYWORD" ∧ p.matching_keywords = kw ∧
      p.confidence_score = kwConfidence window kw ∧
      p.times_matched = (keywordGroup window kw).length ∧
      p.suggested_solutions =
        find_common_solutions db (keywordGroup window kw) ∧
      (applicationsUnique db → ∀ sid, sid ∈ p.suggested_solutions ↔
        2 ≤ ((keywordGroup window kw).filter
          (appliedSuccessfully db sid)).length) := by
  unfold analyze_keyword_patterns at h
  have hrow := analyze_keyword_pass_creates hsize hconf _ _ _ _ _ h
    (nodup_dedupFirst _) hkw hfresh
  refine ⟨_, hrow, rfl, rfl, rfl, rfl, rfl, ?_⟩
  intro hu sid
  exact find_common_solutions_iff db (keywordGroup window kw) hu sid

open PatternAnalyzer in
theorem C6_keyword_confidence_solutions_witness :
    ∃ p ∈ ([exRow1] : List TicketPattern),
      p.pattern_type = "KEYWORD" ∧ p.matching_keywords = "printer" ∧
      p.confidence_score =
        kwConfidence (recentWindow exampleDb 100 30) "printer" ∧
      p.times_matched =
        (keywordGroup (recentWindow exampleDb 100 30) "printer").length ∧
      p.suggested_solutions = find_common_solutions exampleDb
        (keywordGroup (recentWindow exampleDb 100 30) "printer") ∧
      (applicationsUnique exampleDb → ∀ sid,
        sid ∈ p.suggested_solutions ↔
          2 ≤ ((keywordGroup (recentWindow exampleDb 100 30)
            "printer").filter
              (appliedSuccessfully exampleDb sid)).length) :=
  C6_keyword_confidence_solutions exampleDb
    (recentWindow exampleDb 100 30) 100 "printer" [] 1 [exRow1]
    exampleDb_kwrun (by with_unfolding_all decide)
    (by with_unfolding_all decide) (by with_unfolding_all decide)
    (fun q hq => absurd hq (List.not_mem_nil q))

/-- C2 (counterexample): the claim "a pattern row is persisted only when the
occurrence count is at least 3 and the computed confidence is at least 70" is
false for the time sub-analysis: this run persists the time pattern
`Monday_aa` with confidence 60 < 70. -/
theorem C2_pattern_gates_counterexample :
    PatternAnalyzer.analyze_recent_tickets exampleDb 100 30 =
      some ({ patterns_found := 2, tickets_analyzed := 5 }, exampleDb2) ∧
    exRow2 ∈ exampleDb2.patterns ∧
    exRow2 ∉ exampleDb.patterns ∧
    exRow2.pattern_type = "TIME" ∧
    exRow2.confidence_score = 60 ∧
    ¬ (70 : ℚ) ≤ exRow2.confidence_score := by
  refine ⟨exampleDb_run1, ?_, ?_, rfl, rfl, ?_⟩
  · decide
  · decide
  · decide

theorem C2_pattern_gates_amended_witness :
    exRow2 ∈ exampleDb.patterns ∨
      ((exRow2.pattern_type = "KEYWORD" ∨ exRow2.pattern_type = "TIME") ∧
        3 ≤ exRow2.times_matched ∧
        (exRow2.pattern_type = "KEYWORD" → 70 ≤ exRow2.confidence_score)) :=
  C2_pattern_gates_amended exampleDb 100 30 _ _ exampleDb_run1 exRow2
    (List.mem_cons_of_mem _ (List.mem_cons_self _ _))

theorem C7_duplicate_merge_witness :
    ∃ e, (SolutionSuggestionEngine.merge_unique
        (SolutionSuggestionEngine.suggestion_candidates demoDb demoTicket)).filter
        (fun s => s.solution.id == 10) = [e] ∧
      e ∈ SolutionSuggestionEngine.suggestion_candidates demoDb demoTicket ∧
      e.solution.id = 10 ∧
      ∀ x ∈ SolutionSuggestionEngine.suggestion_candidates demoDb demoTicket,
        x.solution.id = 10 → x.confidence_score ≤ e.confidence_score :=
  C7_duplicate_merge demoDb demoTicket 10 (by decide)

end HelpDesk
